import Mathlib

/-!
# Verification of the task-scheduling and resource-allocation core

Shallow embedding of the three planning components of the Liza assistant
(`src/intelligence/planning/priority_manager.py`, `resource_allocator.py`,
`task_scheduler.py`) and proofs of the specified properties.

Modelling conventions:
* Python `float` quantities are modelled as `ℚ` (the code only adds,
  subtracts and compares them).
* Python dicts are modelled as association lists in insertion order with
  unique keys (`lookupA` / `setA` / `eraseA` mirror `d[k]`, `d[k] = v`,
  `del d[k]`).
* `time.time()` / `datetime.now()` values are passed to each operation as an
  explicit `now : ℚ` argument.
* A Python function that can raise is modelled with `Except String`.
-/

namespace Liza

/-! ## Association lists (Python dict in insertion order) -/

/-- `d[k]` as an option: the value of the first pair whose key is `k`. -/
def lookupA {β : Type} (k : String) : List (String × β) → Option β
  | [] => none
  | (k', v) :: rest => if k' = k then some v else lookupA k rest

/-- `d[k] = v`: replace the first binding of `k` in place, else append. -/
def setA {β : Type} (k : String) (v : β) : List (String × β) → List (String × β)
  | [] => [(k, v)]
  | (k', v') :: rest => if k' = k then (k, v) :: rest else (k', v') :: setA k v rest

/-- `del d[k]`: drop the first binding of `k`. -/
def eraseA {β : Type} (k : String) : List (String × β) → List (String × β)
  | [] => []
  | (k', v') :: rest => if k' = k then rest else (k', v') :: eraseA k rest

/-! ## PriorityManager (`priority_manager.py`) -/

/-- `PriorityLevel` enum: CRITICAL=4, HIGH=3, MEDIUM=2, LOW=1, NONE=0. -/
inductive PriorityLevel where
  | NONE
  | LOW
  | MEDIUM
  | HIGH
  | CRITICAL
  deriving DecidableEq, Repr

/-- The numeric `.value` of a `PriorityLevel` member. -/
def PriorityLevel.value : PriorityLevel → ℕ
  | .NONE => 0
  | .LOW => 1
  | .MEDIUM => 2
  | .HIGH => 3
  | .CRITICAL => 4

/-- `PriorityLevel(n)` for `n` produced by `max(value - 1, 0)` (0..4). -/
def PriorityLevel.ofValue : ℕ → PriorityLevel
  | 0 => .NONE
  | 1 => .LOW
  | 2 => .MEDIUM
  | 3 => .HIGH
  | _ => .CRITICAL

/-- One ordinal step down, `PriorityLevel(max(value - 1, 0))` (ℕ subtraction
truncates at 0 exactly as `max(· - 1, 0)` does). -/
def PriorityLevel.down (l : PriorityLevel) : PriorityLevel :=
  .ofValue (l.value - 1)

/-- The `deadline` entry of a task dict: absent, a number, or an ISO date
string represented by its whole-day distance from `datetime.now()`. -/
inductive DeadlineField where
  | absent
  | num (v : ℚ)
  | date (days : ℤ)
  deriving DecidableEq, Repr

/-- The task dict as consumed by `PriorityManager`: every key that
`calculate_priority` and the four rules read, with the `task.get(_, 0)`
defaults. -/
structure PTask where
  deadline : DeadlineField := .absent
  importance : ℚ := 0
  effort : ℚ := 0
  dependencies : ℚ := 0
  user_preference : ℚ := 0
  blocking_count : ℚ := 0
  deriving DecidableEq, Repr

/-- The `deadline` factor as the weighting loop reads it: a number is used
as-is, an absent key defaults to `0`, and a date string raises `TypeError`
when multiplied by the weight `0.3`. -/
def deadlineFactor : DeadlineField → Except String ℚ
  | .absent => .ok 0
  | .num v => .ok v
  | .date _ => .error "TypeError: unsupported operand type(s) for *"

/-- The weighted-factor loop of `calculate_priority`: weights
`deadline 0.3, importance 0.25, effort 0.2, dependencies 0.15,
user_preference 0.1`, iterated in dict order (`deadline` first, so a
`TypeError` there aborts the whole computation). -/
def weightedScore (t : PTask) : Except String ℚ :=
  match deadlineFactor t.deadline with
  | .error e => .error e
  | .ok d => .ok (d * 0.3 + t.importance * 0.25 + t.effort * 0.2 +
      t.dependencies * 0.15 + t.user_preference * 0.1)

/-- `_rule_urgent_deadline`: only a string deadline is examined; `0.3` within
one day, `0.15` within three days. -/
def rule_urgent_deadline (t : PTask) : ℚ :=
  match t.deadline with
  | .date days => if days ≤ 1 then 0.3 else if days ≤ 3 then 0.15 else 0
  | _ => 0

/-- `_rule_high_importance`: `0.25` when `importance ≥ 0.8`. -/
def rule_high_importance (t : PTask) : ℚ :=
  if t.importance ≥ 0.8 then 0.25 else 0

/-- `_rule_blocked_tasks`: `0.2 * min(blocking_count, 5)` when
`blocking_count > 0`. -/
def rule_blocked_tasks (t : PTask) : ℚ :=
  if t.blocking_count > 0 then 0.2 * min t.blocking_count 5 else 0

/-- `_rule_user_preference`: always `user_preference * 0.15`. -/
def rule_user_preference (t : PTask) : ℚ :=
  t.user_preference * 0.15

/-- The rule loop of `calculate_priority`; `if rule_result:` skips a zero
result, which is the same as adding it. -/
def rulesScore (t : PTask) : ℚ :=
  rule_urgent_deadline t + rule_high_importance t +
    rule_blocked_tasks t + rule_user_preference t

/-- `_score_to_level`. -/
def score_to_level (score : ℚ) : PriorityLevel :=
  if score ≥ 0.8 then .CRITICAL
  else if score ≥ 0.6 then .HIGH
  else if score ≥ 0.4 then .MEDIUM
  else if score ≥ 0.2 then .LOW
  else .NONE

/-- `calculate_priority`: weighted factors, then the rules, then
`_score_to_level`; any exception (a string deadline raises `TypeError` in the
weighting loop) is caught and yields `MEDIUM`. -/
def calculate_priority (t : PTask) : PriorityLevel :=
  match weightedScore t with
  | .error _ => .MEDIUM
  | .ok base => score_to_level (base + rulesScore t)

/-- The final score when no exception occurs (observer used to state
score-level claims). -/
def totalScore (t : PTask) : Option ℚ :=
  match weightedScore t with
  | .error _ => none
  | .ok base => some (base + rulesScore t)

/-- The execution context read by `adjust_priority_based_on_context`:
`current_time` (a datetime, of which only `.hour` is read) and
`resource_availability` with its default `1.0` (`user_availability` is read
but never used). -/
structure PContext where
  current_time : Option ℕ := none
  resource_availability : ℚ := 1
  user_availability : ℚ := 1
  deriving DecidableEq, Repr

/-- `adjust_priority_based_on_context`.  The guard
`current_time and current_time.hour >= 22 or current_time.hour <= 6`
parenthesises as `(current_time and hour >= 22) or (hour <= 6)`, so with
`current_time = None` the right operand evaluates `None.hour` and raises
`AttributeError`; with a datetime present it is `hour >= 22 or hour <= 6`.
Inside the off-hours branch a sub-CRITICAL level is returned at once, so the
resource-availability downgrade is only reached otherwise. -/
def adjust_priority_based_on_context (t : PTask) (c : PContext) :
    Except String PriorityLevel :=
  let base := calculate_priority t
  match c.current_time with
  | none => .error "AttributeError: NoneType object has no attribute hour"
  | some hour =>
      if 22 ≤ hour ∨ hour ≤ 6 then
        if base.value < PriorityLevel.CRITICAL.value then
          .ok base.down
        else if c.resource_availability < 0.3 then
          .ok base.down
        else
          .ok base
      else if c.resource_availability < 0.3 then
        .ok base.down
      else
        .ok base

/-! ### Claim-side definitions for the refinement comparisons (C4, C7) -/

/-- The `PriorityInput` bundle of the specification. -/
structure PriorityInput where
  urgency : ℚ
  importance : ℚ
  effort : ℚ
  blockingCount : ℚ
  userPreference : ℚ
  deriving DecidableEq, Repr

/-- The score exactly as claim C4 states it: the five weighted terms with
`0.15·min(blockingCount,5)/5`, plus three bonuses (`+0.30` if
`urgency ≥ 1.0`, `+0.25` if `importance ≥ 0.8`,
`+0.20·min(blockingCount,5)` if `blockingCount > 0`). -/
def claimScore (i : PriorityInput) : ℚ :=
  0.30 * i.urgency + 0.25 * i.importance + 0.20 * i.effort +
    0.15 * (min i.blockingCount 5) / 5 + 0.10 * i.userPreference +
    (if i.urgency ≥ 1 then 0.30 else 0) +
    (if i.importance ≥ 0.8 then 0.25 else 0) +
    (if i.blockingCount > 0 then 0.20 * min i.blockingCount 5 else 0)

/-- `Calculate` as claim C4 states it: the claimed score thresholded. -/
def claimCalculate (i : PriorityInput) : PriorityLevel :=
  score_to_level (claimScore i)

/-- `AdjustForContext` as claim C7 states it: one downgrade for off-hours
below CRITICAL and an independent, composing downgrade for
`resourceAvailability < 0.3`. -/
def claimAdjust (l : PriorityLevel) (hour : ℕ) (ra : ℚ) : PriorityLevel :=
  let l1 := if (22 ≤ hour ∨ hour ≤ 6) ∧ l ≠ .CRITICAL then l.down else l
  if ra < 0.3 then l1.down else l1

/-! ## ResourceAllocator (`resource_allocator.py`) -/

/-- The `Resource` dataclass. -/
structure Resource where
  name : String
  total : ℚ
  allocated : ℚ := 0
  unit : String := "units"
  deriving DecidableEq, Repr

/-- `Resource.available = max(0, total - allocated)`. -/
def Resource.available (r : Resource) : ℚ := max 0 (r.total - r.allocated)

/-- `Resource.can_allocate`. -/
def Resource.can_allocate (r : Resource) (amount : ℚ) : Bool :=
  decide (0 ≤ amount ∧ amount ≤ r.available)

/-- `Resource.allocate`: adds `amount` when `can_allocate`, else fails with
the resource unchanged. -/
def Resource.allocate (r : Resource) (amount : ℚ) : Bool × Resource :=
  if r.can_allocate amount then (true, { r with allocated := r.allocated + amount })
  else (false, r)

/-- `Resource.release`: subtracts `amount` unless it is negative or exceeds
`allocated`, in which case it fails with the resource unchanged. -/
def Resource.release (r : Resource) (amount : ℚ) : Bool × Resource :=
  if amount < 0 ∨ r.allocated < amount then (false, r)
  else (true, { r with allocated := r.allocated - amount })

/-- The `ResourceRequest` record (the transient `allocated` flag of the
Python class is modelled by removing granted requests from the queue). -/
structure ResourceRequest where
  id : String
  requirements : List (String × ℚ)
  priority : ℤ
  timeout : Option ℚ := none
  timestamp : ℚ
  deriving DecidableEq, Repr

/-- State of a `ResourceAllocator`: the resource registry, the pending
request queue and the per-request-id record of granted amounts. -/
structure AllocatorState where
  resources : List (String × Resource) := []
  pending_requests : List ResourceRequest := []
  allocated_resources : List (String × List (String × ℚ)) := []
  deriving DecidableEq, Repr

/-- A freshly constructed allocator. -/
def initialAllocator : AllocatorState := {}

/-- `register_resource`: fails on a duplicate name or a non-positive total,
otherwise adds the resource with `allocated = 0`. -/
def register_resource (name : String) (total : ℚ) (unit : String)
    (s : AllocatorState) : Bool × AllocatorState :=
  match lookupA name s.resources with
  | some _ => (false, s)
  | none =>
      if total ≤ 0 then (false, s)
      else (true, { s with resources := setA name ⟨name, total, 0, unit⟩ s.resources })

/-- `_validate_request`: every named resource exists and every amount is
positive. -/
def validateRequest (reqs : List (String × ℚ)) (res : List (String × Resource)) : Bool :=
  reqs.all fun q => (lookupA q.1 res).isSome && decide (0 < q.2)

/-- `_check_availability`: every named resource can allocate its amount (a
name outside the registry cannot occur on the paths that call this, because
requests are validated first and resources are never deregistered). -/
def checkAvailability (reqs : List (String × ℚ)) (res : List (String × Resource)) : Bool :=
  reqs.all fun q =>
    match lookupA q.1 res with
    | some r => r.can_allocate q.2
    | none => false

/-- The resource-updating loop of `_allocate_resources`:
`self.resources[name].allocate(amount)` for every requirement, in dict
order. -/
def allocResList (reqs : List (String × ℚ)) (res : List (String × Resource)) :
    List (String × Resource) :=
  reqs.foldl
    (fun rs q =>
      match lookupA q.1 rs with
      | some r => setA q.1 (r.allocate q.2).2 rs
      | none => rs)
    res

/-- `_allocate_resources`: records `requirements` under the request id
(overwriting any previous record for the same id) and allocates each
amount. -/
def allocate_resources (request_id : String) (reqs : List (String × ℚ))
    (s : AllocatorState) : AllocatorState :=
  { s with
    allocated_resources := setA request_id reqs s.allocated_resources,
    resources := allocResList reqs s.resources }

/-- `request_resources`: validation, then immediate grant when every
requirement is satisfiable, else the request is appended to the pending
queue and the call returns `false`.  The pending queue is not reprocessed
here. -/
def request_resources (now : ℚ) (request_id : String) (reqs : List (String × ℚ))
    (priority : ℤ) (timeout : Option ℚ) (s : AllocatorState) :
    Bool × AllocatorState :=
  if validateRequest reqs s.resources then
    if checkAvailability reqs s.resources then
      (true, allocate_resources request_id reqs s)
    else
      (false, { s with pending_requests :=
        s.pending_requests ++ [⟨request_id, reqs, priority, timeout, now⟩] })
  else
    (false, s)

/-- The lazy-expiry filter of `_process_pending_requests`: a request is kept
while `timeout` is `None` or `now - timestamp < timeout`. -/
def notExpired (now : ℚ) (r : ResourceRequest) : Bool :=
  match r.timeout with
  | none => true
  | some t => decide (now - r.timestamp < t)

/-- The sort key `(-priority, timestamp)` of `_process_pending_requests`,
as a lexicographic order relation. -/
def reqLE (a b : ResourceRequest) : Prop :=
  -a.priority < -b.priority ∨ (-a.priority = -b.priority ∧ a.timestamp ≤ b.timestamp)

instance : DecidableRel reqLE := fun a b => by
  unfold reqLE
  exact inferInstance

instance : IsTotal ResourceRequest reqLE :=
  ⟨fun a b => by
    unfold reqLE
    rcases lt_trichotomy (-a.priority) (-b.priority) with h | h | h
    · exact Or.inl (Or.inl h)
    · rcases le_total a.timestamp b.timestamp with h' | h'
      · exact Or.inl (Or.inr ⟨h, h'⟩)
      · exact Or.inr (Or.inr ⟨h.symm, h'⟩)
    · exact Or.inr (Or.inl h)⟩

instance : IsTrans ResourceRequest reqLE :=
  ⟨fun a b c hab hbc => by
    unfold reqLE at *
    rcases hab with h | ⟨h, h'⟩ <;> rcases hbc with g | ⟨g, g'⟩
    · exact Or.inl (h.trans g)
    · exact Or.inl (g ▸ h)
    · exact Or.inl (h ▸ g)
    · exact Or.inr ⟨h.trans g, h'.trans g'⟩⟩

/-- `pending_requests.sort(key=lambda x: (-x.priority, x.timestamp))`: a
stable sort by `reqLE` (insertion sort, which is stable like Python's
sort). -/
def sortRequests (l : List ResourceRequest) : List ResourceRequest :=
  List.insertionSort reqLE l

/-- One step of the grant walk of `_process_pending_requests`: a request
whose requirements are all satisfiable is granted (allocated and recorded),
otherwise nothing changes. -/
def tryGrant (s : AllocatorState) (r : ResourceRequest) : Bool × AllocatorState :=
  if checkAvailability r.requirements s.resources then
    (true, allocate_resources r.id r.requirements s)
  else
    (false, s)

/-- The grant walk of `_process_pending_requests`: walk the sorted queue
once, granting every satisfiable request; the second component is the list
of requests left pending. -/
def processWalk (l : List ResourceRequest) (s : AllocatorState) :
    AllocatorState × List ResourceRequest :=
  match l with
  | [] => (s, [])
  | r :: rest =>
      let g := tryGrant s r
      let w := processWalk rest g.2
      (w.1, if g.1 then w.2 else r :: w.2)

/-- `_process_pending_requests`: drop expired requests, sort the remainder
by `(-priority, timestamp)`, then grant every request that has become
satisfiable, in that order. -/
def process_pending_requests (now : ℚ) (s : AllocatorState) : AllocatorState :=
  let sorted := sortRequests (s.pending_requests.filter (notExpired now))
  let w := processWalk sorted s
  { w.1 with pending_requests := w.2 }

/-- The per-requirement loop of `release_resources`:
`self.resources[name].release(amount)` for every recorded pair whose name
is registered (a failed `release` leaves the resource unchanged). -/
def releaseList (rec : List (String × ℚ)) (res : List (String × Resource)) :
    List (String × Resource) :=
  rec.foldl
    (fun rs q =>
      match lookupA q.1 rs with
      | some r => setA q.1 (r.release q.2).2 rs
      | none => rs)
    res

/-- `release_resources`: fails when the id has no recorded allocation;
otherwise returns every recorded amount to its resource, deletes the
record, reprocesses the pending queue and returns `true`. -/
def release_resources (now : ℚ) (request_id : String) (s : AllocatorState) :
    Bool × AllocatorState :=
  match lookupA request_id s.allocated_resources with
  | none => (false, s)
  | some rec =>
      let s' : AllocatorState :=
        { s with
          resources := releaseList rec s.resources,
          allocated_resources := eraseA request_id s.allocated_resources }
      (true, process_pending_requests now s')

/-- One public mutating call on a `ResourceAllocator`. -/
inductive AllocOp where
  | register (name : String) (total : ℚ) (unit : String)
  | request (now : ℚ) (request_id : String) (reqs : List (String × ℚ))
      (priority : ℤ) (timeout : Option ℚ)
  | release (now : ℚ) (request_id : String)

/-- Apply one public call to an allocator state. -/
def applyOp (s : AllocatorState) : AllocOp → AllocatorState
  | .register n t u => (register_resource n t u s).2
  | .request now id reqs p tmo => (request_resources now id reqs p tmo s).2
  | .release now id => (release_resources now id s).2

/-- Run a sequence of public calls. -/
def runOps (s : AllocatorState) (ops : List AllocOp) : AllocatorState :=
  ops.foldl applyOp s

/-- The allocated amount of resource `n` in a registry, `0` when `n` is
unregistered. -/
def allocatedOfL (res : List (String × Resource)) (n : String) : ℚ :=
  match lookupA n res with
  | some r => r.allocated
  | none => 0

/-- The total amount of resource `n` still owed to recorded allocations:
the sum over every record of its entry for `n`. -/
def recordedSumL (records : List (String × List (String × ℚ))) (n : String) : ℚ :=
  (records.map fun p => ((lookupA n p.2).getD 0)).sum

/-- The leaked part of resource `n`: what is allocated beyond what the
records could ever release again. -/
def slack (s : AllocatorState) (n : String) : ℚ :=
  allocatedOfL s.resources n - recordedSumL s.allocated_resources n

/-- Requirement lists that can arise from a Python dict: unique keys. -/
def ReqsWF (reqs : List (String × ℚ)) : Prop :=
  (reqs.map Prod.fst).Nodup

/-- Well-formedness of an allocator state, true of every reachable state:
record ids are unique, each record and each pending request has unique
requirement names and non-negative amounts. -/
def AllocWF (s : AllocatorState) : Prop :=
  (s.allocated_resources.map Prod.fst).Nodup ∧
  (∀ p ∈ s.allocated_resources, ReqsWF p.2 ∧ ∀ q ∈ p.2, 0 ≤ q.2) ∧
  (∀ r ∈ s.pending_requests, ReqsWF r.requirements ∧ ∀ q ∈ r.requirements, 0 ≤ q.2)

/-- Well-formedness of a public call: a requirement map has unique keys
(Python dicts cannot hold a key twice). -/
def OpWF : AllocOp → Prop
  | .request _ _ reqs _ _ => ReqsWF reqs
  | _ => True

/-! ## TaskScheduler (`task_scheduler.py`) -/

/-- A registered task: `handler` and `args`/`kwargs` are opaque payloads
(the scheduler never inspects them), `schedule_time` and `added_at` are
timestamps. -/
structure STask where
  id : String
  func : ℕ
  schedule_time : ℚ
  priority : ℤ
  args : ℕ
  recurring : Bool
  interval : Option ℚ
  added_at : ℚ
  deriving DecidableEq, Repr

/-- An entry of the scheduler's `PriorityQueue`: the tuple
`(priority, schedule_time.timestamp(), task_id, task)`. -/
structure QEntry where
  priority : ℤ
  timestamp : ℚ
  id : String
  task : STask
  deriving DecidableEq, Repr

/-- Pop order of the queue: lexicographic on `(priority, timestamp)`.  The
heap tuple additionally breaks exact ties with `task_id`; no property below
depends on the order of entries with equal priority and timestamp, so the
model leaves their relative order to insertion position. -/
def entryLE (a b : QEntry) : Prop :=
  a.priority < b.priority ∨
    (a.priority = b.priority ∧ a.timestamp ≤ b.timestamp)

instance : DecidableRel entryLE := fun a b => by
  unfold entryLE
  exact inferInstance

instance : IsTotal QEntry entryLE :=
  ⟨fun a b => by
    unfold entryLE
    rcases lt_trichotomy a.priority b.priority with h | h | h
    · exact Or.inl (Or.inl h)
    · rcases le_total a.timestamp b.timestamp with h' | h'
      · exact Or.inl (Or.inr ⟨h, h'⟩)
      · exact Or.inr (Or.inr ⟨h.symm, h'⟩)
    · exact Or.inr (Or.inl h)⟩

instance : IsTrans QEntry entryLE :=
  ⟨fun a b c hab hbc => by
    unfold entryLE at *
    rcases hab with h | ⟨h, h'⟩ <;> rcases hbc with g | ⟨g, g'⟩
    · exact Or.inl (h.trans g)
    · exact Or.inl (g ▸ h)
    · exact Or.inl (h ▸ g)
    · exact Or.inr ⟨h.trans g, h'.trans g'⟩⟩

/-- `task_queue.put`: the heap as the sorted list of its entries in pop
order. -/
def queuePut (e : QEntry) (q : List QEntry) : List QEntry :=
  List.orderedInsert entryLE e q

/-- Scheduler state: the priority queue (in pop order) and the task
registry dict. -/
structure SchedulerState where
  task_queue : List QEntry := []
  registered_tasks : List (String × STask) := []
  deriving DecidableEq, Repr

/-- `add_task`: fails (no state change) when the id is registered, else
builds the task dict, puts `(priority, schedule_time.timestamp(), id, task)`
on the queue and registers the task. -/
def add_task (now : ℚ) (task_id : String) (task_func : ℕ) (schedule_time : ℚ)
    (priority : ℤ) (args : ℕ) (recurring : Bool) (interval : Option ℚ)
    (s : SchedulerState) : Bool × SchedulerState :=
  match lookupA task_id s.registered_tasks with
  | some _ => (false, s)
  | none =>
      let t : STask :=
        ⟨task_id, task_func, schedule_time, priority, args, recurring, interval, now⟩
      (true,
        { task_queue := queuePut ⟨priority, schedule_time, task_id, t⟩ s.task_queue,
          registered_tasks := s.registered_tasks ++ [(task_id, t)] })

/-- Truthiness of `task['recurring'] and task['interval']`: a zero
`timedelta` is falsy, so only a recurring task with a non-zero interval is
rescheduled. -/
def reschedules (t : STask) : Bool :=
  t.recurring && match t.interval with
    | some i => decide (i ≠ 0)
    | none => false

/-- The drain loop of `_scheduler_loop`: pop every entry; a task no longer
registered is dropped; a due task is dispatched (and, when recurring with a
truthy interval, re-registered and re-queued at `schedule_time + interval`,
which the same pass pops again if still due); a task not yet due is parked
in `pending` and re-put after the loop.  `fuel` bounds the number of pops:
a recurring task with a negative interval makes the Python loop run
forever, which the model reports as `none`. -/
def schedLoop (fuel : ℕ) (now : ℚ) (q : List QEntry)
    (reg : List (String × STask)) (dispatched : List String)
    (pending : List QEntry) :
    Option (List String × List QEntry × List (String × STask)) :=
  match fuel with
  | 0 =>
      match q with
      | [] => some (dispatched, pending.foldl (fun acc e => queuePut e acc) [], reg)
      | _ :: _ => none
  | fuel + 1 =>
      match q with
      | [] => some (dispatched, pending.foldl (fun acc e => queuePut e acc) [], reg)
      | e :: rest =>
          match lookupA e.id reg with
          | none => schedLoop fuel now rest reg dispatched pending
          | some _ =>
              if e.task.schedule_time ≤ now then
                if reschedules e.task then
                  match e.task.interval with
                  | some i =>
                      let t' := { e.task with schedule_time := e.task.schedule_time + i }
                      schedLoop fuel now
                        (queuePut ⟨e.priority, t'.schedule_time, e.id, t'⟩ rest)
                        (setA e.id t' reg) (dispatched ++ [e.id]) pending
                  | none => schedLoop fuel now rest reg (dispatched ++ [e.id]) pending
                else
                  schedLoop fuel now rest reg (dispatched ++ [e.id]) pending
              else
                schedLoop fuel now rest reg dispatched (pending ++ [e])

/-- One polling pass of `_scheduler_loop` at time `now`: the ids dispatched
in order, and the state afterwards. -/
def scheduler_pass (fuel : ℕ) (now : ℚ) (s : SchedulerState) :
    Option (List String × SchedulerState) :=
  match schedLoop fuel now s.task_queue s.registered_tasks [] [] with
  | some (d, q, reg) => some (d, ⟨q, reg⟩)
  | none => none

/-! ## Theorems -/

/-! ### PriorityManager lemmas -/

theorem score_to_level_value_mono {s₁ s₂ : ℚ} (h : s₁ ≤ s₂) :
    (score_to_level s₁).value ≤ (score_to_level s₂).value := by
  unfold score_to_level
  split_ifs <;> simp [PriorityLevel.value] <;> linarith

theorem calc_value_le (t₁ t₂ : PTask) (d₁ d₂ : ℚ)
    (h₁ : deadlineFactor t₁.deadline = .ok d₁)
    (h₂ : deadlineFactor t₂.deadline = .ok d₂)
    (hs : d₁ * 0.3 + t₁.importance * 0.25 + t₁.effort * 0.2 +
        t₁.dependencies * 0.15 + t₁.user_preference * 0.1 + rulesScore t₁ ≤
      d₂ * 0.3 + t₂.importance * 0.25 + t₂.effort * 0.2 +
        t₂.dependencies * 0.15 + t₂.user_preference * 0.1 + rulesScore t₂) :
    (calculate_priority t₁).value ≤ (calculate_priority t₂).value := by
  unfold calculate_priority weightedScore
  rw [h₁, h₂]
  exact score_to_level_value_mono hs

theorem totalScore_of_factor (t : PTask) (d : ℚ)
    (hd : deadlineFactor t.deadline = .ok d) :
    totalScore t = some (d * 0.3 + t.importance * 0.25 + t.effort * 0.2 +
      t.dependencies * 0.15 + t.user_preference * 0.1 + rulesScore t) := by
  unfold totalScore weightedScore
  rw [hd]

theorem rule_urgent_deadline_of_factor (t : PTask) (d : ℚ)
    (hd : deadlineFactor t.deadline = .ok d) :
    rule_urgent_deadline t = 0 := by
  unfold rule_urgent_deadline
  cases h : t.deadline with
  | absent => rfl
  | num v => rfl
  | date days => rw [h] at hd; simp [deadlineFactor] at hd

/-! ### C4: the scoring formula -/

/-- C4 counterexample.  The claimed formula
`0.30·urgency + 0.25·importance + 0.20·effort + 0.15·min(blockingCount,5)/5
+ 0.10·userPreference` with exactly three bonuses gives `NONE` for the
input with `userPreference = 1` and all else `0`, but `calculate_priority`
on the corresponding task gives `LOW` (the code has a fourth, unconditional
bonus `0.15·user_preference`); the claimed `+0.30` urgency bonus gives
`HIGH` at `urgency = 1`, but the code gives `LOW` (its deadline bonus never
fires for a numeric urgency value). -/
theorem c4_counterexample :
    calculate_priority { user_preference := 1 } = .LOW ∧
    claimCalculate
      { urgency := 0, importance := 0, effort := 0, blockingCount := 0,
        userPreference := 1 } = .NONE ∧
    calculate_priority { deadline := .num 1 } = .LOW ∧
    claimCalculate
      { urgency := 1, importance := 0, effort := 0, blockingCount := 0,
        userPreference := 0 } = .HIGH := by
  refine ⟨?_, ?_, ?_, ?_⟩ <;>
    norm_num [calculate_priority, weightedScore, deadlineFactor, rulesScore,
      rule_urgent_deadline, rule_high_importance, rule_blocked_tasks,
      rule_user_preference, score_to_level, claimCalculate, claimScore]

/-- C4 as amended.  For every task whose `deadline` entry reads as the
number `d` (or is absent, `d = 0`), the computed level is the fixed
thresholding of
`0.3·d + 0.25·importance + 0.2·effort + 0.15·dependencies
+ 0.1·user_preference`, plus the bonuses `+0.25` if `importance ≥ 0.8`,
`+0.2·min(blocking_count,5)` if `blocking_count > 0`, and the unconditional
`+0.15·user_preference`; the `+0.3 / +0.15` deadline bonus can only fire
for a date-string deadline, in which case the weighting loop raises
`TypeError` and the whole calculation returns `MEDIUM` instead. -/
theorem c4_amended (t : PTask) (d : ℚ)
    (hd : deadlineFactor t.deadline = .ok d) :
    calculate_priority t =
      score_to_level
        (d * 0.3 + t.importance * 0.25 + t.effort * 0.2 +
          t.dependencies * 0.15 + t.user_preference * 0.1 +
          (if t.importance ≥ 0.8 then 0.25 else 0) +
          (if t.blocking_count > 0 then 0.2 * min t.blocking_count 5 else 0) +
          t.user_preference * 0.15) ∧
    (∀ days : ℤ, calculate_priority { t with deadline := .date days } = .MEDIUM) := by
  constructor
  · unfold calculate_priority weightedScore
    rw [hd]
    have hr : rulesScore t = rule_high_importance t + rule_blocked_tasks t +
        rule_user_preference t := by
      rw [rulesScore, rule_urgent_deadline_of_factor t d hd]
      ring
    rw [hr]
    unfold rule_high_importance rule_blocked_tasks rule_user_preference
    ring_nf
  · intro days
    simp [calculate_priority, weightedScore, deadlineFactor]

/-- Witness for `c4_amended` at the concrete task with `user_preference = 1`
and an absent deadline. -/
theorem c4_amended_witness : calculate_priority { user_preference := 1 } = .LOW := by
  have h := (c4_amended { user_preference := 1 } 0 rfl).1
  rw [h]
  norm_num [score_to_level]

/-! ### C5: monotonicity of the score and the level -/

theorem c5_aux_importance (t : PTask) (v₁ v₂ : ℚ) (h : v₁ ≤ v₂) :
    (calculate_priority { t with importance := v₁ }).value ≤
      (calculate_priority { t with importance := v₂ }).value ∧
    ∀ s₁ s₂, totalScore { t with importance := v₁ } = some s₁ →
      totalScore { t with importance := v₂ } = some s₂ → s₁ ≤ s₂ := by
  have e₁ : ({ t with importance := v₁ } : PTask).deadline = t.deadline := rfl
  have e₂ : ({ t with importance := v₂ } : PTask).deadline = t.deadline := rfl
  cases hdf : deadlineFactor t.deadline with
  | error e =>
      constructor
      · unfold calculate_priority weightedScore
        rw [e₁, e₂, hdf]
      · intro s₁ s₂ h₁ h₂
        unfold totalScore weightedScore at h₁
        rw [e₁, hdf] at h₁
        simp at h₁
  | ok d =>
      have hd₁ : deadlineFactor ({ t with importance := v₁ } : PTask).deadline = .ok d := hdf
      have hd₂ : deadlineFactor ({ t with importance := v₂ } : PTask).deadline = .ok d := hdf
      have key : d * 0.3 + v₁ * 0.25 + t.effort * 0.2 + t.dependencies * 0.15 +
          t.user_preference * 0.1 + rulesScore { t with importance := v₁ } ≤
          d * 0.3 + v₂ * 0.25 + t.effort * 0.2 + t.dependencies * 0.15 +
          t.user_preference * 0.1 + rulesScore { t with importance := v₂ } := by
        unfold rulesScore
        rw [rule_urgent_deadline_of_factor _ d hd₁, rule_urgent_deadline_of_factor _ d hd₂]
        unfold rule_high_importance rule_blocked_tasks rule_user_preference
        dsimp only
        split_ifs <;> linarith
      constructor
      · exact calc_value_le _ _ d d hd₁ hd₂ key
      · intro s₁ s₂ h₁ h₂
        rw [totalScore_of_factor _ d hd₁] at h₁
        rw [totalScore_of_factor _ d hd₂] at h₂
        simp only [Option.some.injEq] at h₁ h₂
        rw [← h₁, ← h₂]
        exact key

theorem c5_aux_urgency (t : PTask) (v₁ v₂ : ℚ) (h : v₁ ≤ v₂) :
    (calculate_priority { t with deadline := .num v₁ }).value ≤
      (calculate_priority { t with deadline := .num v₂ }).value ∧
    ∀ s₁ s₂, totalScore { t with deadline := .num v₁ } = some s₁ →
      totalScore { t with deadline := .num v₂ } = some s₂ → s₁ ≤ s₂ := by
  have hd₁ : deadlineFactor ({ t with deadline := .num v₁ } : PTask).deadline = .ok v₁ := rfl
  have hd₂ : deadlineFactor ({ t with deadline := .num v₂ } : PTask).deadline = .ok v₂ := rfl
  have key : v₁ * 0.3 + t.importance * 0.25 + t.effort * 0.2 + t.dependencies * 0.15 +
      t.user_preference * 0.1 + rulesScore { t with deadline := .num v₁ } ≤
      v₂ * 0.3 + t.importance * 0.25 + t.effort * 0.2 + t.dependencies * 0.15 +
      t.user_preference * 0.1 + rulesScore { t with deadline := .num v₂ } := by
    unfold rulesScore
    rw [rule_urgent_deadline_of_factor _ v₁ hd₁, rule_urgent_deadline_of_factor _ v₂ hd₂]
    unfold rule_high_importance rule_blocked_tasks rule_user_preference
    dsimp only
    split_ifs <;> linarith
  constructor
  · exact calc_value_le _ _ v₁ v₂ hd₁ hd₂ key
  · intro s₁ s₂ h₁ h₂
    rw [totalScore_of_factor _ v₁ hd₁] at h₁
    rw [totalScore_of_factor _ v₂ hd₂] at h₂
    simp only [Option.some.injEq] at h₁ h₂
    rw [← h₁, ← h₂]
    exact key

theorem rule_blocked_tasks_mono (t : PTask) (v₁ v₂ : ℚ) (h : v₁ ≤ v₂) :
    rule_blocked_tasks { t with blocking_count := v₁ } ≤
      rule_blocked_tasks { t with blocking_count := v₂ } := by
  unfold rule_blocked_tasks
  dsimp only
  rcases lt_or_le 0 v₁ with h₁ | h₁ <;> rcases lt_or_le 0 v₂ with h₂ | h₂
  · rw [if_pos h₁, if_pos h₂]
    have := min_le_min h (le_refl (5:ℚ))
    linarith
  · linarith
  · rw [if_neg (by linarith), if_pos h₂]
    have : (0:ℚ) ≤ min v₂ 5 := le_min h₂.le (by norm_num)
    linarith
  · rw [if_neg (by linarith), if_neg (by linarith)]

theorem c5_aux_blocking (t : PTask) (v₁ v₂ : ℚ) (h : v₁ ≤ v₂) :
    (calculate_priority { t with blocking_count := v₁ }).value ≤
      (calculate_priority { t with blocking_count := v₂ }).value ∧
    ∀ s₁ s₂, totalScore { t with blocking_count := v₁ } = some s₁ →
      totalScore { t with blocking_count := v₂ } = some s₂ → s₁ ≤ s₂ := by
  have e₁ : ({ t with blocking_count := v₁ } : PTask).deadline = t.deadline := rfl
  cases hdf : deadlineFactor t.deadline with
  | error e =>
      constructor
      · unfold calculate_priority weightedScore
        rw [e₁, show ({ t with blocking_count := v₂ } : PTask).deadline = t.deadline from rfl,
          hdf]
      · intro s₁ s₂ h₁ h₂
        unfold totalScore weightedScore at h₁
        rw [e₁, hdf] at h₁
        simp at h₁
  | ok d =>
      have hd₁ : deadlineFactor ({ t with blocking_count := v₁ } : PTask).deadline = .ok d := hdf
      have hd₂ : deadlineFactor ({ t with blocking_count := v₂ } : PTask).deadline = .ok d := hdf
      have hbl := rule_blocked_tasks_mono t v₁ v₂ h
      have ehi : rule_high_importance ({ t with blocking_count := v₁ } : PTask) =
          rule_high_importance { t with blocking_count := v₂ } := rfl
      have eup : rule_user_preference ({ t with blocking_count := v₁ } : PTask) =
          rule_user_preference { t with blocking_count := v₂ } := rfl
      have key : d * 0.3 + t.importance * 0.25 + t.effort * 0.2 + t.dependencies * 0.15 +
          t.user_preference * 0.1 + rulesScore { t with blocking_count := v₁ } ≤
          d * 0.3 + t.importance * 0.25 + t.effort * 0.2 + t.dependencies * 0.15 +
          t.user_preference * 0.1 + rulesScore { t with blocking_count := v₂ } := by
        unfold rulesScore
        rw [rule_urgent_deadline_of_factor _ d hd₁, rule_urgent_deadline_of_factor _ d hd₂]
        linarith [hbl, ehi.le, ehi.ge, eup.le, eup.ge]
      constructor
      · exact calc_value_le _ _ d d hd₁ hd₂ key
      · intro s₁ s₂ h₁ h₂
        rw [totalScore_of_factor _ d hd₁] at h₁
        rw [totalScore_of_factor _ d hd₂] at h₂
        simp only [Option.some.injEq] at h₁ h₂
        rw [← h₁, ← h₂]
        exact key

theorem c5_aux_user_preference (t : PTask) (v₁ v₂ : ℚ) (h : v₁ ≤ v₂) :
    (calculate_priority { t with user_preference := v₁ }).value ≤
      (calculate_priority { t with user_preference := v₂ }).value ∧
    ∀ s₁ s₂, totalScore { t with user_preference := v₁ } = some s₁ →
      totalScore { t with user_preference := v₂ } = some s₂ → s₁ ≤ s₂ := by
  have e₁ : ({ t with user_preference := v₁ } : PTask).deadline = t.deadline := rfl
  cases hdf : deadlineFactor t.deadline with
  | error e =>
      constructor
      · unfold calculate_priority weightedScore
        rw [e₁, show ({ t with user_preference := v₂ } : PTask).deadline = t.deadline from rfl,
          hdf]
      · intro s₁ s₂ h₁ h₂
        unfold totalScore weightedScore at h₁
        rw [e₁, hdf] at h₁
        simp at h₁
  | ok d =>
      have hd₁ : deadlineFactor ({ t with user_preference := v₁ } : PTask).deadline = .ok d := hdf
      have hd₂ : deadlineFactor ({ t with user_preference := v₂ } : PTask).deadline = .ok d := hdf
      have key : d * 0.3 + t.importance * 0.25 + t.effort * 0.2 + t.dependencies * 0.15 +
          v₁ * 0.1 + rulesScore { t with user_preference := v₁ } ≤
          d * 0.3 + t.importance * 0.25 + t.effort * 0.2 + t.dependencies * 0.15 +
          v₂ * 0.1 + rulesScore { t with user_preference := v₂ } := by
        unfold rulesScore
        rw [rule_urgent_deadline_of_factor _ d hd₁, rule_urgent_deadline_of_factor _ d hd₂]
        unfold rule_high_importance rule_blocked_tasks rule_user_preference
        dsimp only
        split_ifs <;> linarith
      constructor
      · exact calc_value_le _ _ d d hd₁ hd₂ key
      · intro s₁ s₂ h₁ h₂
        rw [totalScore_of_factor _ d hd₁] at h₁
        rw [totalScore_of_factor _ d hd₂] at h₂
        simp only [Option.some.injEq] at h₁ h₂
        rw [← h₁, ← h₂]
        exact key

/-- C5 confirmed.  For a pair of tasks that agree except in one of
`importance`, urgency (the numeric `deadline` value), `blocking_count` or
`user_preference`, the task with the larger value never gets a strictly
smaller final score (when both scores are computed without exception) and
never a strictly smaller priority level. -/
theorem c5_monotone (t : PTask) (v₁ v₂ : ℚ) (h : v₁ ≤ v₂) :
    ((calculate_priority { t with importance := v₁ }).value ≤
        (calculate_priority { t with importance := v₂ }).value ∧
      ∀ s₁ s₂, totalScore { t with importance := v₁ } = some s₁ →
        totalScore { t with importance := v₂ } = some s₂ → s₁ ≤ s₂) ∧
    ((calculate_priority { t with deadline := .num v₁ }).value ≤
        (calculate_priority { t with deadline := .num v₂ }).value ∧
      ∀ s₁ s₂, totalScore { t with deadline := .num v₁ } = some s₁ →
        totalScore { t with deadline := .num v₂ } = some s₂ → s₁ ≤ s₂) ∧
    ((calculate_priority { t with blocking_count := v₁ }).value ≤
        (calculate_priority { t with blocking_count := v₂ }).value ∧
      ∀ s₁ s₂, totalScore { t with blocking_count := v₁ } = some s₁ →
        totalScore { t with blocking_count := v₂ } = some s₂ → s₁ ≤ s₂) ∧
    ((calculate_priority { t with user_preference := v₁ }).value ≤
        (calculate_priority { t with user_preference := v₂ }).value ∧
      ∀ s₁ s₂, totalScore { t with user_preference := v₁ } = some s₁ →
        totalScore { t with user_preference := v₂ } = some s₂ → s₁ ≤ s₂) :=
  ⟨c5_aux_importance t v₁ v₂ h, c5_aux_urgency t v₁ v₂ h,
    c5_aux_blocking t v₁ v₂ h, c5_aux_user_preference t v₁ v₂ h⟩

/-- Witness for `c5_monotone`: importance `0 ≤ 1` on the empty task. -/
theorem c5_monotone_witness :
    (calculate_priority { importance := (0:ℚ) }).value ≤
      (calculate_priority { importance := (1:ℚ) }).value :=
  (c5_monotone {} 0 1 (by norm_num)).1.1

/-! ### C7: context adjustment -/

/-- C7 counterexample.  A task scoring `HIGH`, adjusted at 23:00 with
resource availability `0.1`: the claimed composition of the two downgrades
gives `LOW`, but the code returns from the off-hours branch without ever
reaching the resource check and gives `MEDIUM`. -/
theorem c7_counterexample :
    calculate_priority { deadline := .num 2 } = .HIGH ∧
    adjust_priority_based_on_context { deadline := .num 2 }
      { current_time := some 23, resource_availability := 0.1 } = .ok .MEDIUM ∧
    claimAdjust .HIGH 23 0.1 = .LOW ∧
    PriorityLevel.MEDIUM ≠ PriorityLevel.LOW := by
  refine ⟨?_, ?_, ?_, by decide⟩ <;>
    norm_num [adjust_priority_based_on_context, calculate_priority, weightedScore,
      deadlineFactor, rulesScore, rule_urgent_deadline, rule_high_importance,
      rule_blocked_tasks, rule_user_preference, score_to_level, claimAdjust,
      PriorityLevel.down, PriorityLevel.value, PriorityLevel.ofValue] <;>
    decide

/-- C7 as amended.  With a present `current_time`, the call always returns a
level; an off-hours time (hour ≥ 22 or ≤ 6) with a sub-CRITICAL base level
downgrades one step and returns at once, so the resource-availability
downgrade applies only otherwise (`resource_availability < 0.3` then
downgrades one step, even from CRITICAL); the two downgrades never compose:
the result is never below the base level minus one step, never above the
base level, and never below `NONE` (the type has no level below `NONE`). -/
theorem c7_adjust (t : PTask) (hour : ℕ) (ra : ℚ) :
    ∃ l, adjust_priority_based_on_context t
        { current_time := some hour, resource_availability := ra } = .ok l ∧
      l.value ≤ (calculate_priority t).value ∧
      (calculate_priority t).value ≤ l.value + 1 ∧
      (((22 ≤ hour ∨ hour ≤ 6) ∧ calculate_priority t ≠ .CRITICAL) →
        l = (calculate_priority t).down) ∧
      (¬((22 ≤ hour ∨ hour ≤ 6) ∧ calculate_priority t ≠ .CRITICAL) → ra < 0.3 →
        l = (calculate_priority t).down) ∧
      (¬((22 ≤ hour ∨ hour ≤ 6) ∧ calculate_priority t ≠ .CRITICAL) → ¬(ra < 0.3) →
        l = calculate_priority t) := by
  have hv : ∀ b : PriorityLevel, (b.value < PriorityLevel.CRITICAL.value) ↔ b ≠ .CRITICAL := by
    intro b; cases b <;> decide
  have hle : ∀ b : PriorityLevel, b.down.value ≤ b.value := by
    intro b; cases b <;> decide
  have hplus : ∀ b : PriorityLevel, b.value ≤ b.down.value + 1 := by
    intro b; cases b <;> decide
  unfold adjust_priority_based_on_context
  dsimp only
  by_cases hoff : (22 ≤ hour ∨ hour ≤ 6)
  · by_cases hcrit : calculate_priority t = .CRITICAL
    · rw [if_pos hoff, if_neg (fun hlt => ((hv _).mp hlt) hcrit)]
      by_cases hra : ra < 0.3
      · rw [if_pos hra]
        exact ⟨_, rfl, hle _, hplus _, fun hc => (hc.2 hcrit).elim,
          fun _ _ => rfl, fun _ hn => (hn hra).elim⟩
      · rw [if_neg hra]
        exact ⟨_, rfl, le_refl _, Nat.le_succ _, fun hc => (hc.2 hcrit).elim,
          fun _ hr => (hra hr).elim, fun _ _ => rfl⟩
    · rw [if_pos hoff, if_pos ((hv _).mpr hcrit)]
      exact ⟨_, rfl, hle _, hplus _, fun _ => rfl,
        fun hn => (hn ⟨hoff, hcrit⟩).elim, fun hn => (hn ⟨hoff, hcrit⟩).elim⟩
  · rw [if_neg hoff]
    by_cases hra : ra < 0.3
    · rw [if_pos hra]
      exact ⟨_, rfl, hle _, hplus _, fun hc => (hoff hc.1).elim,
        fun _ _ => rfl, fun _ hn => (hn hra).elim⟩
    · rw [if_neg hra]
      exact ⟨_, rfl, le_refl _, Nat.le_succ _, fun hc => (hoff hc.1).elim,
        fun _ hr => (hra hr).elim, fun _ _ => rfl⟩

/-! ### C8: error propagation -/

/-- C8: the code slip.  With no `current_time` in the context, the guard
`current_time and current_time.hour >= 22 or current_time.hour <= 6`
evaluates `None.hour` (Python parses it as
`(current_time and hour >= 22) or (hour <= 6)`), so
`adjust_priority_based_on_context` raises `AttributeError` instead of
returning a level. -/
theorem c8_missing_time_raises :
    adjust_priority_based_on_context {} { current_time := none } =
      .error "AttributeError: NoneType object has no attribute hour" := rfl

/-! ### Association-list lemmas -/

theorem lookupA_setA_self {β : Type} (k : String) (v : β) (l : List (String × β)) :
    lookupA k (setA k v l) = some v := by
  induction l with
  | nil => simp [setA, lookupA]
  | cons p rest ih =>
      by_cases h : p.1 = k
      · simp [setA, lookupA, h]
      · simp only [setA]
        rw [if_neg h]
        simp only [lookupA]
        rw [if_neg h]
        exact ih

theorem lookupA_setA_ne {β : Type} (k k' : String) (v : β) (l : List (String × β))
    (h : k ≠ k') : lookupA k' (setA k v l) = lookupA k' l := by
  induction l with
  | nil => simp [setA, lookupA, h]
  | cons p rest ih =>
      by_cases hp : p.1 = k
      · simp only [setA]
        rw [if_pos hp]
        simp only [lookupA]
        rw [if_neg h, if_neg (hp ▸ h)]
      · simp only [setA]
        rw [if_neg hp]
        simp only [lookupA]
        by_cases hk' : p.1 = k'
        · rw [if_pos hk', if_pos hk']
        · rw [if_neg hk', if_neg hk']
          exact ih

theorem mem_setA {β : Type} {k : String} {v : β} {l : List (String × β)}
    {p : String × β} (hp : p ∈ setA k v l) : p = (k, v) ∨ p ∈ l := by
  induction l with
  | nil => simpa [setA] using hp
  | cons q rest ih =>
      by_cases hq : q.1 = k
      · simp only [setA] at hp
        rw [if_pos hq] at hp
        rcases List.mem_cons.mp hp with h | h
        · exact Or.inl h
        · exact Or.inr (List.mem_cons_of_mem _ h)
      · simp only [setA] at hp
        rw [if_neg hq] at hp
        rcases List.mem_cons.mp hp with h | h
        · exact Or.inr (h ▸ List.mem_cons_self _ _)
        · rcases ih h with h' | h'
          · exact Or.inl h'
          · exact Or.inr (List.mem_cons_of_mem _ h')

theorem lookupA_mem {β : Type} {k : String} {l : List (String × β)} {v : β}
    (h : lookupA k l = some v) : (k, v) ∈ l := by
  induction l with
  | nil => simp [lookupA] at h
  | cons p rest ih =>
      simp only [lookupA] at h
      by_cases hp : p.1 = k
      · rw [if_pos hp] at h
        injection h with h
        have hpkv : p = (k, v) := by
          cases p
          simp only at hp h
          rw [hp, h]
        rw [← hpkv]
        exact List.mem_cons_self _ _
      · rw [if_neg hp] at h
        exact List.mem_cons_of_mem _ (ih h)

theorem mem_eraseA {β : Type} {k : String} {l : List (String × β)} {p : String × β}
    (hp : p ∈ eraseA k l) : p ∈ l := by
  induction l with
  | nil => simpa [eraseA] using hp
  | cons q rest ih =>
      simp only [eraseA] at hp
      by_cases hq : q.1 = k
      · rw [if_pos hq] at hp
        exact List.mem_cons_of_mem _ hp
      · rw [if_neg hq] at hp
        rcases List.mem_cons.mp hp with h | h
        · exact h ▸ List.mem_cons_self _ _
        · exact List.mem_cons_of_mem _ (ih h)

theorem lookupA_eraseA_ne {β : Type} (k k' : String) (l : List (String × β))
    (h : k ≠ k') : lookupA k' (eraseA k l) = lookupA k' l := by
  induction l with
  | nil => simp [eraseA]
  | cons p rest ih =>
      simp only [eraseA]
      by_cases hp : p.1 = k
      · rw [if_pos hp]
        simp only [lookupA]
        rw [if_neg (hp ▸ h)]
      · rw [if_neg hp]
        simp only [lookupA]
        by_cases hk' : p.1 = k'
        · rw [if_pos hk', if_pos hk']
        · rw [if_neg hk', if_neg hk']
          exact ih

theorem lookupA_eq_none_of_notin {β : Type} (k : String) (l : List (String × β))
    (h : k ∉ l.map Prod.fst) : lookupA k l = none := by
  induction l with
  | nil => rfl
  | cons p rest ih =>
      simp only [List.map_cons, List.mem_cons] at h
      push_neg at h
      simp only [lookupA]
      rw [if_neg (fun e => h.1 e.symm)]
      exact ih h.2

theorem lookupA_eraseA_self {β : Type} (k : String) (l : List (String × β))
    (h : (l.map Prod.fst).Nodup) : lookupA k (eraseA k l) = none := by
  induction l with
  | nil => simp [eraseA, lookupA]
  | cons p rest ih =>
      simp only [List.map_cons, List.nodup_cons] at h
      simp only [eraseA]
      by_cases hp : p.1 = k
      · rw [if_pos hp]
        exact lookupA_eq_none_of_notin k rest (hp ▸ h.1)
      · rw [if_neg hp]
        simp only [lookupA]
        rw [if_neg hp]
        exact ih h.2

/-! ### Resource lemmas -/

theorem allocate_bounds (r : Resource) (a : ℚ)
    (h : 0 ≤ r.allocated ∧ r.allocated ≤ r.total) :
    0 ≤ (r.allocate a).2.allocated ∧ (r.allocate a).2.allocated ≤ (r.allocate a).2.total := by
  unfold Resource.allocate Resource.can_allocate Resource.available
  split_ifs with hc
  · simp only [decide_eq_true_eq] at hc
    have hmax : max 0 (r.total - r.allocated) = r.total - r.allocated :=
      max_eq_right (by linarith [h.2])
    rw [hmax] at hc
    constructor
    · simp only
      linarith [h.1, hc.1]
    · simp only
      linarith [hc.2]
  · exact h

theorem release_bounds (r : Resource) (a : ℚ)
    (h : 0 ≤ r.allocated ∧ r.allocated ≤ r.total) :
    0 ≤ (r.release a).2.allocated ∧ (r.release a).2.allocated ≤ (r.release a).2.total := by
  unfold Resource.release
  split_ifs with hc
  · exact h
  · push_neg at hc
    constructor
    · simp only
      linarith [hc.2]
    · simp only
      linarith [h.2, hc.1]

/-! ### C2: the resource bounds invariant -/

theorem allocResList_inv (reqs : List (String × ℚ)) (res : List (String × Resource))
    (h : ∀ p ∈ res, 0 ≤ p.2.allocated ∧ p.2.allocated ≤ p.2.total) :
    ∀ p ∈ allocResList reqs res, 0 ≤ p.2.allocated ∧ p.2.allocated ≤ p.2.total := by
  induction reqs generalizing res with
  | nil => exact h
  | cons q rest ih =>
      intro p hp
      simp only [allocResList, List.foldl_cons] at hp
      cases hl : lookupA q.1 res with
      | none =>
          rw [hl] at hp
          exact ih res h p hp
      | some r =>
          rw [hl] at hp
          refine ih _ ?_ p hp
          intro p' hp'
          rcases mem_setA hp' with rfl | hm
          · exact allocate_bounds r q.2 (h _ (lookupA_mem hl))
          · exact h p' hm

theorem releaseList_inv (rec : List (String × ℚ)) (res : List (String × Resource))
    (h : ∀ p ∈ res, 0 ≤ p.2.allocated ∧ p.2.allocated ≤ p.2.total) :
    ∀ p ∈ releaseList rec res, 0 ≤ p.2.allocated ∧ p.2.allocated ≤ p.2.total := by
  induction rec generalizing res with
  | nil => exact h
  | cons q rest ih =>
      intro p hp
      simp only [releaseList, List.foldl_cons] at hp
      cases hl : lookupA q.1 res with
      | none =>
          rw [hl] at hp
          exact ih res h p hp
      | some r =>
          rw [hl] at hp
          refine ih _ ?_ p hp
          intro p' hp'
          rcases mem_setA hp' with rfl | hm
          · exact release_bounds r q.2 (h _ (lookupA_mem hl))
          · exact h p' hm

theorem processWalk_res_inv (l : List ResourceRequest) (s : AllocatorState)
    (h : ∀ p ∈ s.resources, 0 ≤ p.2.allocated ∧ p.2.allocated ≤ p.2.total) :
    ∀ p ∈ (processWalk l s).1.resources, 0 ≤ p.2.allocated ∧ p.2.allocated ≤ p.2.total := by
  induction l generalizing s with
  | nil => exact h
  | cons r rest ih =>
      simp only [processWalk, tryGrant]
      split_ifs with hc
      · simp only
        refine ih _ ?_
        simp only [allocate_resources]
        exact allocResList_inv _ _ h
      · simp only
        exact ih _ h

theorem process_pending_res_inv (now : ℚ) (s : AllocatorState)
    (h : ∀ p ∈ s.resources, 0 ≤ p.2.allocated ∧ p.2.allocated ≤ p.2.total) :
    ∀ p ∈ (process_pending_requests now s).resources,
      0 ≤ p.2.allocated ∧ p.2.allocated ≤ p.2.total := by
  unfold process_pending_requests
  dsimp only
  exact processWalk_res_inv _ _ h

theorem applyOp_res_inv (s : AllocatorState) (op : AllocOp)
    (h : ∀ p ∈ s.resources, 0 ≤ p.2.allocated ∧ p.2.allocated ≤ p.2.total) :
    ∀ p ∈ (applyOp s op).resources, 0 ≤ p.2.allocated ∧ p.2.allocated ≤ p.2.total := by
  cases op with
  | register n tot u =>
      simp only [applyOp, register_resource]
      cases hl : lookupA n s.resources with
      | some r => exact h
      | none =>
          split_ifs with ht
          · exact h
          · intro p hp
            rcases mem_setA hp with rfl | hm
            · refine ⟨le_refl 0, ?_⟩
              push_neg at ht
              exact le_of_lt ht
            · exact h p hm
  | request now id reqs pr tmo =>
      simp only [applyOp, request_resources]
      split_ifs with hval hav
      · simp only [allocate_resources]
        exact allocResList_inv reqs s.resources h
      · exact h
      · exact h
  | release now id =>
      simp only [applyOp, release_resources]
      cases hl : lookupA id s.allocated_resources with
      | none => exact h
      | some rec =>
          refine process_pending_res_inv now _ ?_
          exact releaseList_inv rec s.resources h

theorem runOps_res_inv (ops : List AllocOp) :
    ∀ s : AllocatorState,
      (∀ p ∈ s.resources, 0 ≤ p.2.allocated ∧ p.2.allocated ≤ p.2.total) →
      ∀ p ∈ (runOps s ops).resources, 0 ≤ p.2.allocated ∧ p.2.allocated ≤ p.2.total := by
  induction ops with
  | nil => exact fun s h => h
  | cons op rest ih => exact fun s h => ih (applyOp s op) (applyOp_res_inv s op h)

/-- C2 confirmed.  After any sequence of `register_resource` /
`request_resources` / `release_resources` calls on a fresh allocator, every
registered resource satisfies `0 ≤ allocated ≤ total`. -/
theorem c2_resource_invariant (ops : List AllocOp) (p : String × Resource)
    (hp : p ∈ (runOps initialAllocator ops).resources) :
    0 ≤ p.2.allocated ∧ p.2.allocated ≤ p.2.total :=
  runOps_res_inv ops initialAllocator
    (fun q hq => absurd hq (List.not_mem_nil q)) p hp

/-- Witness for `c2_resource_invariant`: register `gpu` with total 2, then
grant and release a request for 1 unit. -/
theorem c2_resource_invariant_witness :
    ("gpu", ({ name := "gpu", total := 2, allocated := 0, unit := "units" } : Resource)) ∈
      (runOps initialAllocator
        [.register "gpu" 2 "units", .request 0 "A" [("gpu", 1)] 0 none,
          .release 1 "A"]).resources ∧
    (0:ℚ) ≤ ({ name := "gpu", total := 2, allocated := 0, unit := "units" } : Resource).allocated ∧
      ({ name := "gpu", total := 2, allocated := 0, unit := "units" } : Resource).allocated ≤
        ({ name := "gpu", total := 2, allocated := 0, unit := "units" } : Resource).total := by
  have hm : ("gpu", ({ name := "gpu", total := 2, allocated := 0, unit := "units" } : Resource)) ∈
      (runOps initialAllocator
        [.register "gpu" 2 "units", .request 0 "A" [("gpu", 1)] 0 none,
          .release 1 "A"]).resources := by
    norm_num [runOps, applyOp, initialAllocator, register_resource, request_resources,
      validateRequest, checkAvailability, allocate_resources, allocResList,
      release_resources, releaseList, process_pending_requests, processWalk,
      sortRequests, notExpired, lookupA, setA, eraseA, Resource.can_allocate,
      Resource.allocate, Resource.release, Resource.available]
  exact ⟨hm, c2_resource_invariant _ _ hm⟩

/-! ### C3: all-or-nothing grants -/

theorem allocResList_lookup_notin (reqs : List (String × ℚ))
    (res : List (String × Resource)) (n : String) (h : n ∉ reqs.map Prod.fst) :
    lookupA n (allocResList reqs res) = lookupA n res := by
  induction reqs generalizing res with
  | nil => rfl
  | cons q rest ih =>
      simp only [List.map_cons, List.mem_cons] at h
      push_neg at h
      cases hl : lookupA q.1 res with
      | none =>
          have heq : allocResList (q :: rest) res = allocResList rest res := by
            simp only [allocResList, List.foldl_cons, hl]
          rw [heq]
          exact ih res h.2
      | some r =>
          have heq : allocResList (q :: rest) res =
              allocResList rest (setA q.1 (r.allocate q.2).2 res) := by
            simp only [allocResList, List.foldl_cons, hl]
          rw [heq, ih _ h.2]
          exact lookupA_setA_ne q.1 n _ res (Ne.symm h.1)

theorem checkAvailability_setA_notin (rest : List (String × ℚ))
    (res : List (String × Resource)) (k : String) (v : Resource)
    (h : k ∉ rest.map Prod.fst) :
    checkAvailability rest (setA k v res) = checkAvailability rest res := by
  induction rest with
  | nil => rfl
  | cons q rest' ih =>
      simp only [List.map_cons, List.mem_cons] at h
      push_neg at h
      simp only [checkAvailability, List.all_cons]
      rw [lookupA_setA_ne k q.1 v res h.1]
      simp only [checkAvailability] at ih
      rw [ih h.2]

theorem allocResList_lookup (reqs : List (String × ℚ)) (res : List (String × Resource))
    (hnd : (reqs.map Prod.fst).Nodup) (hav : checkAvailability reqs res = true) :
    ∀ q ∈ reqs, ∃ r : Resource, lookupA q.1 res = some r ∧
      lookupA q.1 (allocResList reqs res) =
        some { r with allocated := r.allocated + q.2 } := by
  induction reqs generalizing res with
  | nil => intro q hq; cases hq
  | cons q0 rest ih =>
      simp only [List.map_cons, List.nodup_cons] at hnd
      simp only [checkAvailability, List.all_cons, Bool.and_eq_true] at hav
      cases hl : lookupA q0.1 res with
      | none =>
          simp only [hl] at hav
          exact absurd hav.1 (by decide)
      | some r =>
          simp only [hl] at hav
          have halloc : r.allocate q0.2 = (true, { r with allocated := r.allocated + q0.2 }) := by
            unfold Resource.allocate
            rw [if_pos hav.1]
          have heq : allocResList (q0 :: rest) res =
              allocResList rest (setA q0.1 { r with allocated := r.allocated + q0.2 } res) := by
            simp only [allocResList, List.foldl_cons, hl, halloc]
          intro q hq
          rw [heq]
          rcases List.mem_cons.mp hq with rfl | hq'
          · refine ⟨r, hl, ?_⟩
            rw [allocResList_lookup_notin rest _ q.1 hnd.1]
            exact lookupA_setA_self q.1 _ res
          · have hne : q.1 ≠ q0.1 :=
              fun e => hnd.1 (e ▸ List.mem_map_of_mem Prod.fst hq')
            have hav' : checkAvailability rest
                (setA q0.1 { r with allocated := r.allocated + q0.2 } res) = true := by
              rw [checkAvailability_setA_notin rest res q0.1 _ hnd.1]
              exact hav.2
            obtain ⟨r', h1, h2⟩ := ih _ hnd.2 hav' q hq'
            refine ⟨r', ?_, h2⟩
            rw [lookupA_setA_ne q0.1 q.1 _ res (Ne.symm hne)] at h1
            exact h1

/-- C3 confirmed.  A `request_resources` call either grants every named
resource its full amount (returning `true`) or leaves every resource's
allocation untouched (returning `false`); one step of the pending-queue
reprocessing walk (`tryGrant`) has the same dichotomy, so no path ever
leaves a request partially granted. -/
theorem c3_all_or_nothing (now : ℚ) (request_id : String) (reqs : List (String × ℚ))
    (priority : ℤ) (tmo : Option ℚ) (s : AllocatorState)
    (hnd : (reqs.map Prod.fst).Nodup) :
    ((request_resources now request_id reqs priority tmo s).1 = true →
      ∀ q ∈ reqs, ∃ r : Resource, lookupA q.1 s.resources = some r ∧
        lookupA q.1 (request_resources now request_id reqs priority tmo s).2.resources =
          some { r with allocated := r.allocated + q.2 }) ∧
    ((request_resources now request_id reqs priority tmo s).1 = false →
      (request_resources now request_id reqs priority tmo s).2.resources = s.resources) ∧
    (∀ r' : ResourceRequest, (r'.requirements.map Prod.fst).Nodup →
      (tryGrant s r').1 = true →
      ∀ q ∈ r'.requirements, ∃ r : Resource, lookupA q.1 s.resources = some r ∧
        lookupA q.1 (tryGrant s r').2.resources =
          some { r with allocated := r.allocated + q.2 }) ∧
    (∀ r' : ResourceRequest, (tryGrant s r').1 = false → (tryGrant s r').2 = s) := by
  refine ⟨?_, ?_, ?_, ?_⟩
  · intro htrue q hq
    simp only [request_resources] at htrue ⊢
    split_ifs at htrue ⊢ with hval hav
    · simp only [allocate_resources]
      exact allocResList_lookup reqs s.resources hnd hav q hq
  · intro hfalse
    simp only [request_resources] at hfalse ⊢
    split_ifs at hfalse ⊢ with hval hav
    all_goals rfl
  · intro r' hnd' htrue q hq
    simp only [tryGrant] at htrue ⊢
    split_ifs at htrue ⊢ with hc
    · simp only [allocate_resources]
      exact allocResList_lookup r'.requirements s.resources hnd' hc q hq
  · intro r' hfalse
    simp only [tryGrant] at hfalse ⊢
    split_ifs at hfalse ⊢ with hc
    all_goals rfl

/-- Witness for `c3_all_or_nothing`: a request for an unregistered resource
is rejected and changes no resource. -/
theorem c3_all_or_nothing_witness :
    (request_resources 0 "A" [("gpu", (1:ℚ))] 0 none initialAllocator).2.resources =
      initialAllocator.resources :=
  (c3_all_or_nothing 0 "A" [("gpu", 1)] 0 none initialAllocator (by decide)).2.1
    (by norm_num [request_resources, validateRequest, lookupA, initialAllocator])

/-! ### C9: duplicate task ids -/

/-- C9 confirmed.  `add_task` on an id that is already registered returns
`false` and leaves the whole scheduler state — the registered task's fields
and the pending queue — unchanged. -/
theorem c9_duplicate_add (now : ℚ) (task_id : String) (task_func : ℕ)
    (schedule_time : ℚ) (priority : ℤ) (args : ℕ) (recurring : Bool)
    (interval : Option ℚ) (s : SchedulerState) (t0 : STask)
    (h : lookupA task_id s.registered_tasks = some t0) :
    add_task now task_id task_func schedule_time priority args recurring interval s =
      (false, s) := by
  unfold add_task
  rw [h]

/-- Witness for `c9_duplicate_add`: re-adding id `A` after a first
successful add fails and changes nothing. -/
theorem c9_duplicate_add_witness :
    add_task 1 "A" 7 9 2 3 true (some 1)
        (add_task 0 "A" 0 5 1 0 false none {}).2 =
      (false, (add_task 0 "A" 0 5 1 0 false none {}).2) :=
  c9_duplicate_add 1 "A" 7 9 2 3 true (some 1) _
    ⟨"A", 0, 5, 1, 0, false, none, 0⟩ (by norm_num [add_task, lookupA, queuePut])

/-! ### C1: dispatch order within a polling pass -/

theorem schedLoop_no_resched (now : ℚ) (reg : List (String × STask)) :
    ∀ (q : List QEntry) (fuel : ℕ) (d : List String) (p : List QEntry),
      (∀ e ∈ q, reschedules e.task = false) → q.length ≤ fuel →
      schedLoop fuel now q reg d p =
        some (d ++ (q.filter (fun e => (lookupA e.id reg).isSome &&
            decide (e.task.schedule_time ≤ now))).map QEntry.id,
          (p ++ q.filter (fun e => (lookupA e.id reg).isSome &&
            decide (¬ e.task.schedule_time ≤ now))).foldl (fun acc e => queuePut e acc) [],
          reg) := by
  intro q
  induction q with
  | nil =>
      intro fuel d p hq hf
      cases fuel with
      | zero => simp [schedLoop]
      | succ f => simp [schedLoop]
  | cons e rest ih =>
      intro fuel d p hq hf
      cases fuel with
      | zero => simp at hf
      | succ f =>
          have hfr : rest.length ≤ f := by simpa using hf
          cases hl : lookupA e.id reg with
          | none =>
              have step : schedLoop (f + 1) now (e :: rest) reg d p =
                  schedLoop f now rest reg d p := by
                simp [schedLoop, hl]
              rw [step, ih f d p (fun x hx => hq x (List.mem_cons_of_mem _ hx)) hfr]
              simp [List.filter_cons, hl]
          | some t0 =>
              by_cases hdue : e.task.schedule_time ≤ now
              · have step : schedLoop (f + 1) now (e :: rest) reg d p =
                    schedLoop f now rest reg (d ++ [e.id]) p := by
                  simp [schedLoop, hl, hdue, hq e (List.mem_cons_self _ _)]
                rw [step,
                  ih f (d ++ [e.id]) p (fun x hx => hq x (List.mem_cons_of_mem _ hx)) hfr]
                simp [List.filter_cons, hl, hdue]
              · have step : schedLoop (f + 1) now (e :: rest) reg d p =
                    schedLoop f now rest reg d (p ++ [e]) := by
                  simp [schedLoop, hl, hdue]
                rw [step,
                  ih f d (p ++ [e]) (fun x hx => hq x (List.mem_cons_of_mem _ hx)) hfr]
                simp [List.filter_cons, hl, hdue, not_le.mp hdue, List.foldl_cons]

/-- C1 as amended.  The queue is kept ordered by the heap tuple
`(priority, schedule_time)` ascending (a Python `PriorityQueue` is a
min-heap, so the numerically smallest priority pops first, ties by earlier
schedule time); one polling pass over a queue of tasks that do not
re-schedule themselves dispatches exactly the registered, due entries in
queue order, which is ascending in `(priority, schedule_time)` — not
descending in priority as claimed. -/
theorem c1_pass_order (now : ℚ) (s : SchedulerState) (fuel : ℕ)
    (hsorted : s.task_queue.Pairwise entryLE)
    (hnr : ∀ e ∈ s.task_queue, reschedules e.task = false)
    (hfuel : s.task_queue.length ≤ fuel) :
    scheduler_pass fuel now s =
      some ((s.task_queue.filter (fun e => (lookupA e.id s.registered_tasks).isSome &&
          decide (e.task.schedule_time ≤ now))).map QEntry.id,
        ⟨(s.task_queue.filter (fun e => (lookupA e.id s.registered_tasks).isSome &&
            decide (¬ e.task.schedule_time ≤ now))).foldl (fun acc e => queuePut e acc) [],
          s.registered_tasks⟩) ∧
    (s.task_queue.filter (fun e => (lookupA e.id s.registered_tasks).isSome &&
        decide (e.task.schedule_time ≤ now))).Pairwise
      (fun a b => a.priority < b.priority ∨
        (a.priority = b.priority ∧ a.timestamp ≤ b.timestamp)) ∧
    ∀ (now' : ℚ) (id : String) (f : ℕ) (st : ℚ) (pr : ℤ) (a : ℕ) (r : Bool)
      (iv : Option ℚ),
      ((add_task now' id f st pr a r iv s).2.task_queue).Pairwise entryLE := by
  refine ⟨?_, ?_, ?_⟩
  · unfold scheduler_pass
    rw [schedLoop_no_resched now s.registered_tasks s.task_queue fuel [] [] hnr hfuel]
    simp
  · exact List.Pairwise.sublist (List.filter_sublist _) hsorted
  · intro now' id f st pr a r iv
    unfold add_task
    cases hl : lookupA id s.registered_tasks with
    | some t0 => exact hsorted
    | none => exact List.Sorted.orderedInsert _ _ hsorted

/-- Witness for `c1_pass_order` at the empty scheduler. -/
theorem c1_pass_order_witness :
    scheduler_pass 0 0 {} =
      some (((({} : SchedulerState)).task_queue.filter
          (fun e => (lookupA e.id (({} : SchedulerState)).registered_tasks).isSome &&
            decide (e.task.schedule_time ≤ 0))).map QEntry.id,
        ⟨((({} : SchedulerState)).task_queue.filter
            (fun e => (lookupA e.id (({} : SchedulerState)).registered_tasks).isSome &&
              decide (¬ e.task.schedule_time ≤ 0))).foldl (fun acc e => queuePut e acc) [],
          (({} : SchedulerState)).registered_tasks⟩) :=
  (c1_pass_order 0 {} 0 (by simp) (by simp) (by simp)).1

/-- C1 counterexample.  Two tasks both due, `A` with priority 1 and `B`
with priority 2: the polling pass dispatches `A` first (ascending
priority), not the strictly higher priority `B` first as claimed. -/
theorem c1_counterexample :
    (scheduler_pass 5 10
        ((add_task 0 "B" 0 0 2 0 false none
          ((add_task 0 "A" 0 0 1 0 false none {}).2)).2)).map Prod.fst =
      some ["A", "B"] ∧
    (["A", "B"] ≠ ["B", "A"]) ∧ ((1:ℤ) < 2) := by
  refine ⟨by decide, by decide, by decide⟩

/-! ### C6: release semantics and queue reprocessing -/

theorem releaseList_lookup_notin (rec : List (String × ℚ))
    (res : List (String × Resource)) (n : String) (h : n ∉ rec.map Prod.fst) :
    lookupA n (releaseList rec res) = lookupA n res := by
  induction rec generalizing res with
  | nil => rfl
  | cons q rest ih =>
      simp only [List.map_cons, List.mem_cons] at h
      push_neg at h
      cases hl : lookupA q.1 res with
      | none =>
          have heq : releaseList (q :: rest) res = releaseList rest res := by
            simp only [releaseList, List.foldl_cons, hl]
          rw [heq]
          exact ih res h.2
      | some r =>
          have heq : releaseList (q :: rest) res =
              releaseList rest (setA q.1 (r.release q.2).2 res) := by
            simp only [releaseList, List.foldl_cons, hl]
          rw [heq, ih _ h.2]
          exact lookupA_setA_ne q.1 n _ res (Ne.symm h.1)

theorem releaseList_lookup (rec : List (String × ℚ)) (res : List (String × Resource))
    (hnd : (rec.map Prod.fst).Nodup)
    (hok : ∀ q ∈ rec, ∃ r : Resource, lookupA q.1 res = some r ∧
      0 ≤ q.2 ∧ q.2 ≤ r.allocated) :
    ∀ q ∈ rec, ∃ r : Resource, lookupA q.1 res = some r ∧
      lookupA q.1 (releaseList rec res) =
        some { r with allocated := r.allocated - q.2 } := by
  induction rec generalizing res with
  | nil => intro q hq; cases hq
  | cons q0 rest ih =>
      simp only [List.map_cons, List.nodup_cons] at hnd
      obtain ⟨r, hl, h0, hle⟩ := hok q0 (List.mem_cons_self _ _)
      have hrel : r.release q0.2 = (true, { r with allocated := r.allocated - q0.2 }) := by
        unfold Resource.release
        rw [if_neg]
        push_neg
        exact ⟨h0, hle⟩
      have heq : releaseList (q0 :: rest) res =
          releaseList rest (setA q0.1 { r with allocated := r.allocated - q0.2 } res) := by
        simp only [releaseList, List.foldl_cons, hl, hrel]
      intro q hq
      rw [heq]
      rcases List.mem_cons.mp hq with rfl | hq'
      · refine ⟨r, hl, ?_⟩
        rw [releaseList_lookup_notin rest _ q.1 hnd.1]
        exact lookupA_setA_self q.1 _ res
      · have hne : q.1 ≠ q0.1 :=
          fun e => hnd.1 (e ▸ List.mem_map_of_mem Prod.fst hq')
        have hok' : ∀ p ∈ rest, ∃ r' : Resource,
            lookupA p.1 (setA q0.1 { r with allocated := r.allocated - q0.2 } res) = some r' ∧
            0 ≤ p.2 ∧ p.2 ≤ r'.allocated := by
          intro p hp
          have hpne : p.1 ≠ q0.1 :=
            fun e => hnd.1 (e ▸ List.mem_map_of_mem Prod.fst hp)
          obtain ⟨r', h1, h2, h3⟩ := hok p (List.mem_cons_of_mem _ hp)
          exact ⟨r', by rw [lookupA_setA_ne q0.1 p.1 _ res (Ne.symm hpne)]; exact h1, h2, h3⟩
        obtain ⟨r', h1, h2⟩ := ih _ hnd.2 hok' q hq'
        refine ⟨r', ?_, h2⟩
        rw [lookupA_setA_ne q0.1 q.1 _ res (Ne.symm hne)] at h1
        exact h1

theorem processWalk_kept_sublist (l : List ResourceRequest) (s : AllocatorState) :
    (processWalk l s).2.Sublist l := by
  induction l generalizing s with
  | nil => simp [processWalk]
  | cons r rest ih =>
      simp only [processWalk]
      split_ifs with hg
      · exact ((ih _).trans (List.sublist_cons_self _ _))
      · exact List.Sublist.cons₂ r (ih _)

theorem processWalk_records_lookup_none (l : List ResourceRequest)
    (s : AllocatorState) (request_id : String) (hid : ∀ r ∈ l, r.id ≠ request_id)
    (h : lookupA request_id s.allocated_resources = none) :
    lookupA request_id (processWalk l s).1.allocated_resources = none := by
  induction l generalizing s with
  | nil => exact h
  | cons r rest ih =>
      simp only [processWalk, tryGrant]
      split_ifs with hg
      · simp only
        refine ih _ (fun x hx => hid x (List.mem_cons_of_mem _ hx)) ?_
        simp only [allocate_resources]
        rw [lookupA_setA_ne r.id request_id _ _ (hid r (List.mem_cons_self _ _))]
        exact h
      · simp only
        exact ih _ (fun x hx => hid x (List.mem_cons_of_mem _ hx)) h

theorem release_resources_none (now : ℚ) (request_id : String) (s : AllocatorState)
    (h : lookupA request_id s.allocated_resources = none) :
    release_resources now request_id s = (false, s) := by
  unfold release_resources
  rw [h]

/-- C6 as amended.  `release_resources` of an unrecorded id returns `false`
with no state change; of a recorded id it returns `true`, returns exactly
the recorded amounts to the named resources, deletes the record (so a
second release returns `false` — provided no pending request bearing the
same id was granted during reprocessing), and reprocesses the pending
queue: expired requests are dropped, the remainder is walked in descending
priority order tie-broken by ascending enqueue time, granted requests are
removed, and what stays pending is a subsequence of that sorted walk.
Reprocessing is triggered only here (and by `optimize` calls) — a fresh
`request_resources` call does not reprocess the queue. -/
theorem c6_release (now : ℚ) (request_id : String) (s : AllocatorState) :
    (lookupA request_id s.allocated_resources = none →
      release_resources now request_id s = (false, s)) ∧
    (∀ rec, lookupA request_id s.allocated_resources = some rec →
      (release_resources now request_id s).1 = true ∧
      ((rec.map Prod.fst).Nodup →
        (∀ q ∈ rec, ∃ r : Resource, lookupA q.1 s.resources = some r ∧
          0 ≤ q.2 ∧ q.2 ≤ r.allocated) →
        ∀ q ∈ rec, ∃ r : Resource, lookupA q.1 s.resources = some r ∧
          lookupA q.1 (releaseList rec s.resources) =
            some { r with allocated := r.allocated - q.2 }) ∧
      ((s.allocated_resources.map Prod.fst).Nodup →
        (∀ r' ∈ s.pending_requests, r'.id ≠ request_id) →
        lookupA request_id
            (release_resources now request_id s).2.allocated_resources = none ∧
          ∀ now' : ℚ,
            (release_resources now' request_id
              (release_resources now request_id s).2).1 = false) ∧
      ((release_resources now request_id s).2.pending_requests.Pairwise reqLE ∧
        (∀ r' ∈ (release_resources now request_id s).2.pending_requests,
          notExpired now r' = true) ∧
        (release_resources now request_id s).2.pending_requests.Sublist
          (sortRequests (s.pending_requests.filter (notExpired now))))) := by
  constructor
  · exact release_resources_none now request_id s
  · intro rec hrec
    have hout : release_resources now request_id s =
        (true, process_pending_requests now
          { s with resources := releaseList rec s.resources,
                   allocated_resources := eraseA request_id s.allocated_resources }) := by
      unfold release_resources
      rw [hrec]
    refine ⟨by rw [hout], ?_, ?_, ?_⟩
    · intro hnd hok
      exact releaseList_lookup rec s.resources hnd hok
    · intro hndids hnp
      have hbase : lookupA request_id
          (eraseA request_id s.allocated_resources) = none :=
        lookupA_eraseA_self request_id _ hndids
      have hidw : ∀ r' ∈ sortRequests
          (s.pending_requests.filter (notExpired now)), r'.id ≠ request_id := by
        intro r' hr'
        have hm : r' ∈ s.pending_requests.filter (notExpired now) :=
          (List.perm_insertionSort reqLE _).mem_iff.mp hr'
        exact hnp r' (List.mem_of_mem_filter hm)
      have hnone : lookupA request_id
          (release_resources now request_id s).2.allocated_resources = none := by
        rw [hout]
        unfold process_pending_requests
        dsimp only
        exact processWalk_records_lookup_none _ _ _ hidw hbase
      refine ⟨hnone, ?_⟩
      intro now'
      rw [release_resources_none now' request_id _ hnone]
    · rw [hout]
      unfold process_pending_requests
      dsimp only
      refine ⟨?_, ?_, ?_⟩
      · exact List.Pairwise.sublist (processWalk_kept_sublist _ _)
          (List.sorted_insertionSort reqLE _)
      · intro r' hr'
        have h1 : r' ∈ sortRequests (s.pending_requests.filter (notExpired now)) :=
          (processWalk_kept_sublist _ _).subset hr'
        have h2 : r' ∈ s.pending_requests.filter (notExpired now) :=
          (List.perm_insertionSort reqLE _).mem_iff.mp h1
        exact List.of_mem_filter h2
      · exact processWalk_kept_sublist _ _

/-- C6 counterexample.  First, a fresh `request_resources` call does not
reprocess the queue: with a queued request `B` whose 1-second timeout has
long expired, a later request `C` at `now = 5` leaves `B` in the pending
queue (reprocessing would have dropped it).  Second, a second release of
the same id need not return `false`: with a pending request re-using id
`A`, releasing `A` re-grants the pending `A` and records it again, so the
next release of `A` returns `true`. -/
theorem c6_counterexample :
    ((runOps initialAllocator
        [.register "gpu" 2 "units", .request 0 "A" [("gpu", 2)] 0 none,
          .request 0 "B" [("gpu", 1)] 0 (some 1),
          .request 5 "C" [("gpu", 1)] 0 none]).pending_requests.map
      ResourceRequest.id = ["B", "C"]) ∧
    notExpired 5 ⟨"B", [("gpu", 1)], 0, some 1, 0⟩ = false ∧
    (release_resources 0 "A"
        (runOps initialAllocator
          [.register "gpu" 2 "units", .request 0 "A" [("gpu", 2)] 0 none,
            .request 0 "A" [("gpu", 2)] 0 none, .release 0 "A"])).1 = true := by
  refine ⟨?_, ?_, ?_⟩ <;>
    norm_num [runOps, applyOp, initialAllocator, register_resource,
      request_resources, validateRequest, checkAvailability, allocate_resources,
      allocResList, release_resources, releaseList, process_pending_requests,
      processWalk, tryGrant, sortRequests, List.insertionSort, List.orderedInsert,
      notExpired, reqLE, lookupA, setA, eraseA, Resource.can_allocate,
      Resource.allocate, Resource.release, Resource.available, String.reduceEq]

/-! ### C10: overwritten records leak allocations -/

theorem lookupA_of_mem_nodup {β : Type} {k : String} {v : β} {l : List (String × β)}
    (hnd : (l.map Prod.fst).Nodup) (hm : (k, v) ∈ l) : lookupA k l = some v := by
  induction l with
  | nil => cases hm
  | cons p rest ih =>
      simp only [List.map_cons, List.nodup_cons] at hnd
      rcases List.mem_cons.mp hm with rfl | hm'
      · simp [lookupA]
      · have hne : p.1 ≠ k :=
          fun e => hnd.1 (e ▸ List.mem_map_of_mem Prod.fst hm')
        simp only [lookupA]
        rw [if_neg hne]
        exact ih hnd.2 hm'

theorem lookupA_ne_none_of_mem_keys {β : Type} {k : String} {l : List (String × β)}
    (hm : k ∈ l.map Prod.fst) : lookupA k l ≠ none := by
  induction l with
  | nil => cases hm
  | cons p rest ih =>
      simp only [List.map_cons, List.mem_cons] at hm
      simp only [lookupA]
      by_cases hp : p.1 = k
      · rw [if_pos hp]
        exact Option.some_ne_none _
      · rw [if_neg hp]
        exact ih (hm.resolve_left fun e => hp e.symm)

theorem getD_lookupA_nonneg (reqs : List (String × ℚ)) (n : String)
    (h : ∀ q ∈ reqs, 0 ≤ q.2) : 0 ≤ ((lookupA n reqs).getD 0) := by
  cases hl : lookupA n reqs with
  | none => simp
  | some a => simpa using h (n, a) (lookupA_mem hl)

theorem recordedSumL_setA_fresh (records : List (String × List (String × ℚ)))
    (rid : String) (reqs : List (String × ℚ)) (n : String)
    (h : lookupA rid records = none) :
    recordedSumL (setA rid reqs records) n =
      recordedSumL records n + ((lookupA n reqs).getD 0) := by
  induction records with
  | nil => simp [setA, recordedSumL]
  | cons p rest ih =>
      simp only [lookupA] at h
      by_cases hp : p.1 = rid
      · rw [if_pos hp] at h
        cases h
      · rw [if_neg hp] at h
        simp only [setA]
        rw [if_neg hp]
        simp only [recordedSumL, List.map_cons, List.sum_cons] at ih ⊢
        rw [ih h]
        ring

theorem recordedSumL_setA_overwrite (records : List (String × List (String × ℚ)))
    (rid : String) (reqs old : List (String × ℚ)) (n : String)
    (h : lookupA rid records = some old) :
    recordedSumL (setA rid reqs records) n =
      recordedSumL records n - ((lookupA n old).getD 0) + ((lookupA n reqs).getD 0) := by
  induction records with
  | nil => simp [lookupA] at h
  | cons p rest ih =>
      simp only [lookupA] at h
      by_cases hp : p.1 = rid
      · rw [if_pos hp] at h
        injection h with h
        simp only [setA]
        rw [if_pos hp]
        simp only [recordedSumL, List.map_cons, List.sum_cons]
        rw [h]
        ring
      · rw [if_neg hp] at h
        simp only [setA]
        rw [if_neg hp]
        simp only [recordedSumL, List.map_cons, List.sum_cons] at ih ⊢
        rw [ih h]
        ring

theorem recordedSumL_eraseA (records : List (String × List (String × ℚ)))
    (rid : String) (old : List (String × ℚ)) (n : String)
    (h : lookupA rid records = some old) :
    recordedSumL (eraseA rid records) n =
      recordedSumL records n - ((lookupA n old).getD 0) := by
  induction records with
  | nil => simp [lookupA] at h
  | cons p rest ih =>
      simp only [lookupA] at h
      by_cases hp : p.1 = rid
      · rw [if_pos hp] at h
        injection h with h
        simp only [eraseA]
        rw [if_pos hp]
        simp only [recordedSumL, List.map_cons, List.sum_cons]
        rw [h]
        ring
      · rw [if_neg hp] at h
        simp only [eraseA]
        rw [if_neg hp]
        simp only [recordedSumL, List.map_cons, List.sum_cons] at ih ⊢
        rw [ih h]
        ring

theorem allocatedOfL_allocResList (reqs : List (String × ℚ))
    (res : List (String × Resource)) (n : String)
    (hnd : (reqs.map Prod.fst).Nodup) (hav : checkAvailability reqs res = true) :
    allocatedOfL (allocResList reqs res) n =
      allocatedOfL res n + ((lookupA n reqs).getD 0) := by
  cases hl : lookupA n reqs with
  | none =>
      have hnotin : n ∉ reqs.map Prod.fst := fun hm =>
        lookupA_ne_none_of_mem_keys hm hl
      unfold allocatedOfL
      rw [allocResList_lookup_notin reqs res n hnotin]
      simp
  | some a =>
      obtain ⟨r, h1, h2⟩ :=
        allocResList_lookup reqs res hnd hav (n, a) (lookupA_mem hl)
      unfold allocatedOfL
      rw [h1, h2]
      simp

theorem allocatedOfL_releaseList_bounds (rec : List (String × ℚ))
    (res : List (String × Resource)) (n : String)
    (hnd : (rec.map Prod.fst).Nodup) (hpos : ∀ q ∈ rec, 0 ≤ q.2) :
    allocatedOfL res n - ((lookupA n rec).getD 0) ≤
        allocatedOfL (releaseList rec res) n ∧
      allocatedOfL (releaseList rec res) n ≤ allocatedOfL res n := by
  induction rec generalizing res with
  | nil => simp [releaseList, lookupA]
  | cons q0 rest ih =>
      simp only [List.map_cons, List.nodup_cons] at hnd
      have hpos0 : 0 ≤ q0.2 := hpos q0 (List.mem_cons_self _ _)
      by_cases hn : q0.1 = n
      · have hrecl : lookupA n (q0 :: rest) = some q0.2 := by
          simp only [lookupA]
          rw [if_pos hn]
        rw [hrecl]
        have hrest : n ∉ rest.map Prod.fst := hn ▸ hnd.1
        cases hl : lookupA q0.1 res with
        | none =>
            have heq : releaseList (q0 :: rest) res = releaseList rest res := by
              simp only [releaseList, List.foldl_cons, hl]
            have hz : allocatedOfL res n = 0 := by
              unfold allocatedOfL
              rw [← hn, hl]
            rw [heq, hz]
            simp only [Option.getD_some]
            have hub := (ih res hnd.2 (fun q hq => hpos q (List.mem_cons_of_mem _ hq))).2
            have hlb := (ih res hnd.2 (fun q hq => hpos q (List.mem_cons_of_mem _ hq))).1
            have hrl : ((lookupA n rest).getD 0) = 0 := by
              rw [lookupA_eq_none_of_notin n rest hrest]
              rfl
            constructor
            · rw [hz] at hlb
              rw [hrl] at hlb
              linarith
            · rw [hz] at hub
              exact hub
        | some r =>
            have heq : releaseList (q0 :: rest) res =
                releaseList rest (setA q0.1 (r.release q0.2).2 res) := by
              simp only [releaseList, List.foldl_cons, hl]
            rw [heq]
            have hfin : allocatedOfL (releaseList rest (setA q0.1 (r.release q0.2).2 res)) n =
                (r.release q0.2).2.allocated := by
              unfold allocatedOfL
              rw [releaseList_lookup_notin rest _ n hrest, ← hn,
                lookupA_setA_self q0.1 _ res]
            have hres : allocatedOfL res n = r.allocated := by
              unfold allocatedOfL
              rw [← hn, hl]
            rw [hfin, hres]
            simp only [Option.getD_some]
            unfold Resource.release
            split_ifs with hc <;> constructor <;> simp only <;> linarith
      · have hrecl : lookupA n (q0 :: rest) = lookupA n rest := by
          simp only [lookupA]
          rw [if_neg hn]
        rw [hrecl]
        cases hl : lookupA q0.1 res with
        | none =>
            have heq : releaseList (q0 :: rest) res = releaseList rest res := by
              simp only [releaseList, List.foldl_cons, hl]
            rw [heq]
            exact ih res hnd.2 (fun q hq => hpos q (List.mem_cons_of_mem _ hq))
        | some r =>
            have heq : releaseList (q0 :: rest) res =
                releaseList rest (setA q0.1 (r.release q0.2).2 res) := by
              simp only [releaseList, List.foldl_cons, hl]
            rw [heq]
            have hsame : allocatedOfL (setA q0.1 (r.release q0.2).2 res) n =
                allocatedOfL res n := by
              unfold allocatedOfL
              rw [lookupA_setA_ne q0.1 n _ res hn]
            have := ih (setA q0.1 (r.release q0.2).2 res) hnd.2
              (fun q hq => hpos q (List.mem_cons_of_mem _ hq))
            rw [hsame] at this
            exact this

theorem allocatedOfL_releaseList_exact (rec : List (String × ℚ))
    (res : List (String × Resource)) (n : String)
    (hnd : (rec.map Prod.fst).Nodup)
    (hok : ∀ q ∈ rec, ∃ r : Resource, lookupA q.1 res = some r ∧
      0 ≤ q.2 ∧ q.2 ≤ r.allocated) :
    allocatedOfL (releaseList rec res) n =
      allocatedOfL res n - ((lookupA n rec).getD 0) := by
  cases hl : lookupA n rec with
  | none =>
      have hnotin : n ∉ rec.map Prod.fst := fun hm =>
        lookupA_ne_none_of_mem_keys hm hl
      unfold allocatedOfL
      rw [releaseList_lookup_notin rec res n hnotin]
      simp
  | some a =>
      obtain ⟨r, h1, h2⟩ :=
        releaseList_lookup rec res hnd hok (n, a) (lookupA_mem hl)
      unfold allocatedOfL
      rw [h1, h2]
      simp

theorem keys_setA_mem {β : Type} {x k : String} {v : β} {l : List (String × β)}
    (hx : x ∈ (setA k v l).map Prod.fst) : x = k ∨ x ∈ l.map Prod.fst := by
  obtain ⟨p, hp, rfl⟩ := List.mem_map.mp hx
  rcases mem_setA hp with rfl | hm
  · exact Or.inl rfl
  · exact Or.inr (List.mem_map_of_mem _ hm)

theorem nodup_keys_setA {β : Type} (k : String) (v : β) (l : List (String × β))
    (h : (l.map Prod.fst).Nodup) : ((setA k v l).map Prod.fst).Nodup := by
  induction l with
  | nil => simp [setA]
  | cons p rest ih =>
      simp only [List.map_cons, List.nodup_cons] at h
      by_cases hp : p.1 = k
      · simp only [setA]
        rw [if_pos hp]
        simp only [List.map_cons, List.nodup_cons]
        exact ⟨hp ▸ h.1, h.2⟩
      · simp only [setA]
        rw [if_neg hp]
        simp only [List.map_cons, List.nodup_cons]
        refine ⟨?_, ih h.2⟩
        intro hx
        rcases keys_setA_mem hx with rfl | hm
        · exact hp rfl
        · exact h.1 hm

theorem eraseA_sublist {β : Type} (k : String) (l : List (String × β)) :
    (eraseA k l).Sublist l := by
  induction l with
  | nil => simp [eraseA]
  | cons p rest ih =>
      simp only [eraseA]
      split_ifs
      · exact List.sublist_cons_self _ _
      · exact List.Sublist.cons₂ _ ih

theorem nodup_keys_eraseA {β : Type} (k : String) (l : List (String × β))
    (h : (l.map Prod.fst).Nodup) : ((eraseA k l).map Prod.fst).Nodup :=
  List.Nodup.sublist (List.Sublist.map Prod.fst (eraseA_sublist k l)) h

theorem validate_pos (reqs : List (String × ℚ)) (res : List (String × Resource))
    (h : validateRequest reqs res = true) : ∀ q ∈ reqs, 0 < q.2 := by
  intro q hq
  simp only [validateRequest, List.all_eq_true] at h
  have hx := h q hq
  simp only [Bool.and_eq_true, decide_eq_true_eq] at hx
  exact hx.2

theorem slack_allocate_resources (rid : String) (reqs : List (String × ℚ))
    (s : AllocatorState) (n : String)
    (hrecwf : ∀ p ∈ s.allocated_resources, ∀ q ∈ p.2, 0 ≤ q.2)
    (hnd : (reqs.map Prod.fst).Nodup)
    (hav : checkAvailability reqs s.resources = true) :
    slack s n ≤ slack (allocate_resources rid reqs s) n := by
  unfold slack allocate_resources
  dsimp only
  rw [allocatedOfL_allocResList reqs s.resources n hnd hav]
  cases hold : lookupA rid s.allocated_resources with
  | none =>
      rw [recordedSumL_setA_fresh _ rid reqs n hold]
      linarith
  | some old =>
      rw [recordedSumL_setA_overwrite _ rid reqs old n hold]
      have h0 : 0 ≤ ((lookupA n old).getD 0) :=
        getD_lookupA_nonneg old n (hrecwf (rid, old) (lookupA_mem hold))
      linarith

theorem processWalk_slack_wf (l : List ResourceRequest) (s : AllocatorState)
    (hl : ∀ r ∈ l, (r.requirements.map Prod.fst).Nodup ∧
      ∀ q ∈ r.requirements, 0 ≤ q.2)
    (hnd : (s.allocated_resources.map Prod.fst).Nodup)
    (hwf : ∀ p ∈ s.allocated_resources,
      (p.2.map Prod.fst).Nodup ∧ ∀ q ∈ p.2, 0 ≤ q.2) :
    (∀ n, slack s n ≤ slack (processWalk l s).1 n) ∧
    ((processWalk l s).1.allocated_resources.map Prod.fst).Nodup ∧
    (∀ p ∈ (processWalk l s).1.allocated_resources,
      (p.2.map Prod.fst).Nodup ∧ ∀ q ∈ p.2, 0 ≤ q.2) := by
  induction l generalizing s with
  | nil => exact ⟨fun n => le_refl _, hnd, hwf⟩
  | cons r rest ih =>
      simp only [processWalk, tryGrant]
      split_ifs with hg
      · simp only
        have hr := hl r (List.mem_cons_self _ _)
        have hstep : ∀ n, slack s n ≤ slack (allocate_resources r.id r.requirements s) n :=
          fun n => slack_allocate_resources r.id r.requirements s n
            (fun p hp q hq => (hwf p hp).2 q hq) hr.1 hg
        have hnd' : ((allocate_resources r.id r.requirements s).allocated_resources.map
            Prod.fst).Nodup := by
          simp only [allocate_resources]
          exact nodup_keys_setA r.id r.requirements _ hnd
        have hwf' : ∀ p ∈ (allocate_resources r.id r.requirements s).allocated_resources,
            (p.2.map Prod.fst).Nodup ∧ ∀ q ∈ p.2, 0 ≤ q.2 := by
          simp only [allocate_resources]
          intro p hp
          rcases mem_setA hp with rfl | hm
          · exact ⟨hr.1, fun q hq => hr.2 q hq⟩
          · exact hwf p hm
        obtain ⟨h1, h2, h3⟩ := ih _ (fun x hx => hl x (List.mem_cons_of_mem _ hx)) hnd' hwf'
        exact ⟨fun n => le_trans (hstep n) (h1 n), h2, h3⟩
      · simp only
        exact ih _ (fun x hx => hl x (List.mem_cons_of_mem _ hx)) hnd hwf

theorem process_pending_slack_wf (now : ℚ) (s : AllocatorState) (hwf : AllocWF s) :
    (∀ n, slack s n ≤ slack (process_pending_requests now s) n) ∧
    AllocWF (process_pending_requests now s) := by
  obtain ⟨hnd, hrec, hpend⟩ := hwf
  have hsortmem : ∀ r ∈ sortRequests (s.pending_requests.filter (notExpired now)),
      r ∈ s.pending_requests := fun r hr =>
    List.mem_of_mem_filter ((List.perm_insertionSort reqLE _).mem_iff.mp hr)
  have hl : ∀ r ∈ sortRequests (s.pending_requests.filter (notExpired now)),
      (r.requirements.map Prod.fst).Nodup ∧ ∀ q ∈ r.requirements, 0 ≤ q.2 :=
    fun r hr => hpend r (hsortmem r hr)
  obtain ⟨h1, h2, h3⟩ := processWalk_slack_wf
    (sortRequests (s.pending_requests.filter (notExpired now))) s hl hnd hrec
  unfold process_pending_requests
  dsimp only
  refine ⟨h1, h2, h3, ?_⟩
  intro r hr
  have hm : r ∈ sortRequests (s.pending_requests.filter (notExpired now)) :=
    (processWalk_kept_sublist _ _).subset hr
  exact hpend r (hsortmem r hm)

theorem applyOp_slack_wf (s : AllocatorState) (op : AllocOp) (hwf : AllocWF s)
    (hop : OpWF op) :
    (∀ n, slack s n ≤ slack (applyOp s op) n) ∧ AllocWF (applyOp s op) := by
  obtain ⟨hnd, hrec, hpend⟩ := hwf
  cases op with
  | register name tot u =>
      simp only [applyOp, register_resource]
      cases hl : lookupA name s.resources with
      | some r => exact ⟨fun n => le_refl _, hnd, hrec, hpend⟩
      | none =>
          split_ifs with ht
          · exact ⟨fun n => le_refl _, hnd, hrec, hpend⟩
          · refine ⟨?_, hnd, hrec, hpend⟩
            intro n
            unfold slack
            dsimp only
            have halloc : allocatedOfL (setA name ⟨name, tot, 0, u⟩ s.resources) n =
                allocatedOfL s.resources n := by
              by_cases hn : name = n
              · subst hn
                unfold allocatedOfL
                rw [lookupA_setA_self, hl]
              · unfold allocatedOfL
                rw [lookupA_setA_ne name n _ _ hn]
            rw [halloc]
  | request now rid reqs pr tmo =>
      simp only [applyOp, request_resources]
      split_ifs with hval hav
      · refine ⟨?_, ?_, ?_, hpend⟩
        · intro n
          exact slack_allocate_resources rid reqs s n
            (fun p hp q hq => (hrec p hp).2 q hq) hop hav
        · simp only [allocate_resources]
          exact nodup_keys_setA rid reqs _ hnd
        · simp only [allocate_resources]
          intro p hp
          rcases mem_setA hp with rfl | hm
          · exact ⟨hop, fun q hq => (validate_pos reqs s.resources hval q hq).le⟩
          · exact hrec p hm
      · refine ⟨fun n => le_refl _, hnd, hrec, ?_⟩
        intro r hr
        rcases List.mem_append.mp hr with hm | hm
        · exact hpend r hm
        · simp only [List.mem_singleton] at hm
          subst hm
          exact ⟨hop, fun q hq => (validate_pos reqs s.resources hval q hq).le⟩
      · exact ⟨fun n => le_refl _, hnd, hrec, hpend⟩
  | release now rid =>
      simp only [applyOp]
      cases hrecl : lookupA rid s.allocated_resources with
      | none =>
          rw [release_resources_none now rid s hrecl]
          exact ⟨fun n => le_refl _, hnd, hrec, hpend⟩
      | some rec =>
          have hout : release_resources now rid s =
              (true, process_pending_requests now
                { s with resources := releaseList rec s.resources,
                         allocated_resources := eraseA rid s.allocated_resources }) := by
            unfold release_resources
            rw [hrecl]
          rw [hout]
          have hrwf := hrec (rid, rec) (lookupA_mem hrecl)
          have hstep : ∀ n, slack s n ≤ slack
              { s with resources := releaseList rec s.resources,
                       allocated_resources := eraseA rid s.allocated_resources } n := by
            intro n
            unfold slack
            dsimp only
            rw [recordedSumL_eraseA _ rid rec n hrecl]
            have hb := (allocatedOfL_releaseList_bounds rec s.resources n
              hrwf.1 hrwf.2).1
            linarith
          have hwf' : AllocWF
              { s with resources := releaseList rec s.resources,
                       allocated_resources := eraseA rid s.allocated_resources } :=
            ⟨nodup_keys_eraseA rid _ hnd, fun p hp => hrec p (mem_eraseA hp), hpend⟩
          obtain ⟨h1, h2⟩ := process_pending_slack_wf now _ hwf'
          exact ⟨fun n => le_trans (hstep n) (h1 n), h2⟩

theorem runOps_slack_wf (ops : List AllocOp) :
    ∀ s : AllocatorState, AllocWF s → (∀ op ∈ ops, OpWF op) →
      (∀ n, slack s n ≤ slack (runOps s ops) n) ∧ AllocWF (runOps s ops) := by
  induction ops with
  | nil => exact fun s hwf _ => ⟨fun n => le_refl _, hwf⟩
  | cons op rest ih =>
      intro s hwf hops
      obtain ⟨h1, h2⟩ := applyOp_slack_wf s op hwf (hops op (List.mem_cons_self _ _))
      obtain ⟨h3, h4⟩ := ih (applyOp s op) h2 (fun x hx => hops x (List.mem_cons_of_mem _ hx))
      exact ⟨fun n => le_trans (h1 n) (h3 n), h4⟩

/-- C10 confirmed.  Requesting with an id that already holds a recorded
allocation, when the new requirements are satisfiable, returns `true` and
overwrites the record with the new requirements; the subsequent release
returns `true` but gives back only the second request's amounts, so each
resource's `slack` — the allocation that no remaining record can ever
release — grows by exactly the first request's recorded amount, and the
slack never decreases under any further well-formed operation sequence:
the leak is permanent. -/
theorem c10_overwrite_leak (now now' : ℚ) (request_id : String)
    (reqs2 rec1 : List (String × ℚ)) (priority : ℤ) (tmo : Option ℚ)
    (s : AllocatorState)
    (hrec1 : lookupA request_id s.allocated_resources = some rec1)
    (hwf : AllocWF s)
    (hres : ∀ p ∈ s.resources, 0 ≤ p.2.allocated)
    (hval : validateRequest reqs2 s.resources = true)
    (hav : checkAvailability reqs2 s.resources = true)
    (hnd2 : (reqs2.map Prod.fst).Nodup)
    (hpending : s.pending_requests = []) :
    (request_resources now request_id reqs2 priority tmo s).1 = true ∧
    lookupA request_id
      (request_resources now request_id reqs2 priority tmo s).2.allocated_resources =
      some reqs2 ∧
    (release_resources now' request_id
      (request_resources now request_id reqs2 priority tmo s).2).1 = true ∧
    lookupA request_id
      ((release_resources now' request_id
        (request_resources now request_id reqs2 priority tmo s).2).2).allocated_resources =
      none ∧
    (∀ n, slack ((release_resources now' request_id
        (request_resources now request_id reqs2 priority tmo s).2).2) n =
      slack s n + ((lookupA n rec1).getD 0)) ∧
    (∀ q ∈ rec1, slack ((release_resources now' request_id
        (request_resources now request_id reqs2 priority tmo s).2).2) q.1 =
      slack s q.1 + q.2) ∧
    (∀ ops : List AllocOp, (∀ op ∈ ops, OpWF op) → ∀ n,
      slack ((release_resources now' request_id
          (request_resources now request_id reqs2 priority tmo s).2).2) n ≤
        slack (runOps ((release_resources now' request_id
          (request_resources now request_id reqs2 priority tmo s).2).2) ops) n) := by
  have hreq : request_resources now request_id reqs2 priority tmo s =
      (true, allocate_resources request_id reqs2 s) := by
    unfold request_resources
    rw [if_pos hval, if_pos hav]
  have hlook2 : lookupA request_id
      (allocate_resources request_id reqs2 s).allocated_resources = some reqs2 := by
    simp only [allocate_resources]
    exact lookupA_setA_self _ _ _
  have hfinal : (release_resources now' request_id
      (request_resources now request_id reqs2 priority tmo s).2).2 =
      { resources := releaseList reqs2 (allocResList reqs2 s.resources),
        pending_requests := [],
        allocated_resources :=
          eraseA request_id (setA request_id reqs2 s.allocated_resources) } := by
    rw [hreq]
    dsimp only
    unfold release_resources allocate_resources
    dsimp only
    rw [lookupA_setA_self]
    dsimp only
    unfold process_pending_requests
    dsimp only
    rw [hpending]
    rfl
  have hok : ∀ q ∈ reqs2, ∃ r' : Resource,
      lookupA q.1 (allocResList reqs2 s.resources) = some r' ∧
      0 ≤ q.2 ∧ q.2 ≤ r'.allocated := by
    intro q hq
    obtain ⟨r, hr1, hr2⟩ := allocResList_lookup reqs2 s.resources hnd2 hav q hq
    have h0 : 0 ≤ r.allocated := hres (q.1, r) (lookupA_mem hr1)
    have hqpos : 0 < q.2 := validate_pos reqs2 s.resources hval q hq
    refine ⟨{ r with allocated := r.allocated + q.2 }, hr2, hqpos.le, ?_⟩
    simp only
    linarith
  have h5 : ∀ n, slack ((release_resources now' request_id
      (request_resources now request_id reqs2 priority tmo s).2).2) n =
      slack s n + ((lookupA n rec1).getD 0) := by
    intro n
    rw [hfinal]
    unfold slack
    dsimp only
    rw [allocatedOfL_releaseList_exact reqs2 _ n hnd2 hok,
      allocatedOfL_allocResList reqs2 s.resources n hnd2 hav,
      recordedSumL_eraseA _ request_id reqs2 n (lookupA_setA_self _ _ _),
      recordedSumL_setA_overwrite _ request_id reqs2 rec1 n hrec1]
    ring
  have hwfreq : AllocWF (applyOp s (.request now request_id reqs2 priority tmo)) :=
    (applyOp_slack_wf s (.request now request_id reqs2 priority tmo) hwf hnd2).2
  have hwffin : AllocWF (applyOp (applyOp s (.request now request_id reqs2 priority tmo))
      (.release now' request_id)) :=
    (applyOp_slack_wf _ (.release now' request_id) hwfreq trivial).2
  refine ⟨by rw [hreq], by rw [hreq]; exact hlook2, ?_, ?_, h5, ?_, ?_⟩
  · rw [hreq]
    dsimp only
    unfold release_resources allocate_resources
    dsimp only
    rw [lookupA_setA_self]
  · rw [hfinal]
    exact lookupA_eraseA_self request_id _
      (nodup_keys_setA request_id reqs2 _ hwf.1)
  · intro q hq
    rw [h5 q.1]
    have hrecwf := hwf.2.1 (request_id, rec1) (lookupA_mem hrec1)
    rw [lookupA_of_mem_nodup hrecwf.1 hq]
    rfl
  · intro ops hops n
    exact (runOps_slack_wf ops _ hwffin hops).1 n

/-- Witness for `c10_overwrite_leak`: `gpu` has total 10, request `A` holds
3 units, then `A` requests 2 more. -/
theorem c10_overwrite_leak_witness :
    (request_resources 1 "A" [("gpu", (2:ℚ))] 0 none
      (runOps initialAllocator
        [.register "gpu" 10 "units", .request 0 "A" [("gpu", 3)] 0 none])).1 =
      true :=
  (c10_overwrite_leak 1 2 "A" [("gpu", 2)] [("gpu", 3)] 0 none
    (runOps initialAllocator
      [.register "gpu" 10 "units", .request 0 "A" [("gpu", 3)] 0 none])
    (by norm_num [runOps, applyOp, initialAllocator, register_resource,
      request_resources, validateRequest, checkAvailability, allocate_resources,
      allocResList, lookupA, setA, Resource.can_allocate, Resource.allocate,
      Resource.available, String.reduceEq])
    (by norm_num [AllocWF, ReqsWF, runOps, applyOp, initialAllocator,
      register_resource, request_resources, validateRequest, checkAvailability,
      allocate_resources, allocResList, lookupA, setA, Resource.can_allocate,
      Resource.allocate, Resource.available, String.reduceEq])
    (by norm_num [runOps, applyOp, initialAllocator, register_resource,
      request_resources, validateRequest, checkAvailability, allocate_resources,
      allocResList, lookupA, setA, Resource.can_allocate, Resource.allocate,
      Resource.available, String.reduceEq])
    (by norm_num [runOps, applyOp, initialAllocator, register_resource,
      request_resources, validateRequest, checkAvailability, allocate_resources,
      allocResList, lookupA, setA, Resource.can_allocate, Resource.allocate,
      Resource.available, String.reduceEq])
    (by norm_num [runOps, applyOp, initialAllocator, register_resource,
      request_resources, validateRequest, checkAvailability, allocate_resources,
      allocResList, lookupA, setA, Resource.can_allocate, Resource.allocate,
      Resource.available, String.reduceEq])
    (by decide)
    (by norm_num [runOps, applyOp, initialAllocator, register_resource,
      request_resources, validateRequest, checkAvailability, allocate_resources,
      allocResList, lookupA, setA, Resource.can_allocate, Resource.allocate,
      Resource.available, String.reduceEq])).1

end Liza
